import Mathlib

/-!
Verification of the "ort" in-memory three-way tree merge engine
(merge-ort.c of the newren/git repository) against its natural-language
specification.

The Lean definitions below are a shallow embedding of the C source.
Machine integers that can never overflow in the modelled code paths
(3-bit masks, file modes, counters) are modelled as `Nat`; object ids
are modelled as opaque `Nat` values (the object store is content
addressed, so distinct contents have distinct ids and equal contents
equal ids); C strings, which are NUL-free byte strings, are modelled as
`String` (for path-map keys) or `List Nat` (where the byte-level
comparison behaviour matters).  External collaborators that the spec
declares out of scope (the three-way text merge `ll_merge`, the
attribute renormalization `renormalize_buffer`, the similarity
detector) enter as explicit function parameters ("oracles"): the
claims settled here do not depend on their behaviour beyond their
types.
-/

/-- VERSION INFO (struct version_info): (object id, file mode). -/
structure version_info where
  mode : Nat
  oid : Nat
deriving Repr, DecidableEq

/-- The null version (null mode and null oid), used when zeroing stages. -/
def null_version : version_info := { mode := 0, oid := 0 }

/-- S_IFMT, the file-type bits of a mode (0o170000). -/
def s_IFMT : Nat := 0o170000

/-- S_ISREG: mode denotes a regular file (type bits 0o100000). -/
def s_ISREG (m : Nat) : Bool := m &&& s_IFMT = 0o100000

/-- MERGED INFO (struct merged_info, result part): resolved version,
`is_null` (absent from the result) and `clean` (no conflict). -/
structure merged_info where
  result : version_info
  is_null : Bool
  clean : Bool
deriving Repr, DecidableEq

/-- CONFLICT INFO (struct conflict_info): merged_info header, stage
triple, the three-bit masks and the two conflict flags.  The C source
lays a merged_info out as a prefix of a conflict_info; here every
record carries all fields and `clean` tells which part is meaningful,
exactly as note N2 of the spec describes. -/
structure conflict_info where
  merged : merged_info
  stage0 : version_info
  stage1 : version_info
  stage2 : version_info
  filemask : Nat
  dirmask : Nat
  match_mask : Nat
  df_conflict : Bool
  path_conflict : Bool
deriving Repr, DecidableEq

/-- Access stages[i] of a conflict_info. -/
def conflict_info.stage (ci : conflict_info) (i : Nat) : version_info :=
  if i = 0 then ci.stage0 else if i = 1 then ci.stage1 else ci.stage2

/-- Write stages[i] of a conflict_info. -/
def conflict_info.setStage (ci : conflict_info) (i : Nat) (v : version_info) : conflict_info :=
  if i = 0 then { ci with stage0 := v }
  else if i = 1 then { ci with stage1 := v }
  else { ci with stage2 := v }

/-! ### strmap: string-keyed maps (strmap.h), modelled as association lists -/

/-- A strmap from full path to per-path record, as an association list;
`smPut` mirrors strmap_put (replace if present, else insert). -/
abbrev strmap := List (String × conflict_info)

/-- strmap_put: replace the value at `k` if present, else append. -/
def smPut : strmap → String → conflict_info → strmap
  | [], k, v => [(k, v)]
  | (k0, v0) :: rest, k, v =>
      if k0 = k then (k, v) :: rest else (k0, v0) :: smPut rest k v

/-- strmap_get: first binding of `k`, if any. -/
def smLookup : strmap → String → Option conflict_info
  | [], _ => none
  | (k0, v0) :: rest, k => if k0 = k then some v0 else smLookup rest k

/-- strmap_remove: drop every binding of `k`. -/
def smRemove (m : strmap) (k : String) : strmap :=
  m.filter (fun e => e.1 ≠ k)

/-- The key set of a strmap. -/
def smKeys (m : strmap) : List String := m.map (fun e => e.1)

/-! ### Mode merging (handle_content_merge, merge-ort.c lines 1642-1664)

The mode-merging rule at the top of handle_content_merge: `clean`
starts out 1; if `a->mode == b->mode || a->mode == o->mode` the result
mode is `b->mode`; otherwise the result mode is `a->mode` and
`clean = (b->mode == o->mode)`. -/

/-- Mode-merge portion of handle_content_merge: returns (result mode,
clean flag as left by the mode rule). -/
def handle_content_merge_modes (o a b : Nat) : Nat × Bool :=
  if a = b ∨ a = o then (b, true) else (a, decide (b = o))

/-! ### Directory rename collapse (get_directory_renames, lines 1886-1948)

For one old directory, the C code iterates the counts map tracking
`max`, `bad_max` and `best`:
`if (count == max) bad_max = max; else if (count > max) { max = count; best = target_dir; }`.
Afterwards `max == 0` is skipped silently; `bad_max == max` emits the
"directory rename split" diagnostic, clears the overall clean flag and
installs no mapping; otherwise `old -> best` is installed. -/

/-- The inner counting loop of get_directory_renames for one source
directory, folded over the (target directory, count) entries in
iteration order; the accumulator is (max, bad_max, best). -/
def dir_rename_fold (counts : List (String × Nat)) : Nat × Nat × Option String :=
  counts.foldl
    (fun acc e =>
      if e.2 = acc.1 then (acc.1, acc.1, acc.2.2)
      else if e.2 > acc.1 then (e.2, acc.2.1, some e.1)
      else acc)
    (0, 0, none)

/-- Outcome of get_directory_renames for one source directory:
(installed mapping if any, contribution to the overall clean flag,
whether the "directory rename split" diagnostic was emitted). -/
def dir_rename_for (counts : List (String × Nat)) : Option String × Bool × Bool :=
  let acc := dir_rename_fold counts
  if acc.1 = 0 then (none, true, false)
  else if acc.2.1 = acc.1 then (none, false, true)
  else (acc.2.2, true, false)

/-- get_directory_renames over the whole dir_rename_count map of one
side (a list of (old directory, counts) entries): produces the
dir_renames map and the overall clean flag (`*clean &= 0` on any
split). -/
def get_directory_renames (dirs : List (String × List (String × Nat))) :
    List (String × String) × Bool :=
  dirs.foldl
    (fun acc d =>
      let r := dir_rename_for d.2
      let renames :=
        match r.1 with
        | some best => acc.1 ++ [(d.1, best)]
        | none => acc.1
      (renames, acc.2 && r.2.1))
    ([], true)

/-- Maximum count appearing in a counts list (0 when empty). -/
def max_count (counts : List (String × Nat)) : Nat :=
  counts.foldl (fun m e => Nat.max m e.2) 0

/-- Number of entries of a counts list attaining count `v`. -/
def count_at (counts : List (String × Nat)) (v : Nat) : Nat :=
  counts.countP (fun e => e.2 = v)

/-- A counts list has a tie at its (nonzero) maximum: at least two
target directories attain the maximal count. -/
def has_tie (counts : List (String × Nat)) : Bool :=
  2 ≤ count_at counts (max_count counts)

/-! ### Redo-after-renames trigger (handle_deferred_entries, lines 1230-1265)

`path_count_before` is the size of the path map before the deferred
entries were handled, `path_count_after` (nonzero exactly when some
deferred subtree had to be expanded) the size afterwards.  The C code:
`if (path_count_after) { if (path_count_after / path_count_before > wanted_factor) { renames->redo_after_renames = 1; renames->cached_pairs_valid_side = -1; } } else if (redo_after_renames == 2) redo_after_renames = 0;`
with `wanted_factor = 10`. -/

/-- The rename-cache bookkeeping state touched by the redo logic. -/
structure redo_state where
  redo_after_renames : Nat
  cached_pairs_valid_side : Int
deriving Repr, DecidableEq

/-- Tail of handle_deferred_entries: decide whether to schedule a redo
of collect_merge_info (C division is Nat division here). -/
def handle_deferred_redo (path_count_before path_count_after : Nat)
    (st : redo_state) : redo_state :=
  if path_count_after ≠ 0 then
    if path_count_after / path_count_before > 10 then
      { st with redo_after_renames := 1, cached_pairs_valid_side := -1 }
    else st
  else if st.redo_after_renames = 2 then { st with redo_after_renames := 0 }
  else st

/-- detect_regular_renames tail (lines 2893-2902): once rename
detection has run and populated the cache, a scheduled redo is
promoted from 1 to 2. -/
def detect_regular_renames_redo (detection_ran : Bool) (st : redo_state) : redo_state :=
  if st.redo_after_renames ≠ 0 && detection_ran then
    { st with redo_after_renames := 2 }
  else st

/-- Driver slice of merge_ort_nonrecursive_internal (lines 4354-4375)
composed with the second pass of handle_deferred_entries: returns the
final redo state and the number of collect_merge_info passes.  On the
redo pass every deferred subtree resolves from the cache, so
`path_count_after` is 0 and handle_deferred_redo resets the flag. -/
def redo_driver (path_count_before path_count_after : Nat) (detection_ran : Bool) :
    redo_state × Nat :=
  let st0 : redo_state := { redo_after_renames := 0, cached_pairs_valid_side := 0 }
  let st1 := handle_deferred_redo path_count_before path_count_after st0
  let st2 := detect_regular_renames_redo detection_ran st1
  if st2.redo_after_renames = 2 then
    (handle_deferred_redo path_count_before 0 st2, 2)
  else (st2, 1)

/-! ### Path ordering of the resolver (sort_dirs_next_to_their_children, lines 3124-3168)

Paths are NUL-free byte strings, modelled as `List Nat`.  The C
comparator scans to the first differing byte; when the end of a string
is reached, the terminator is compared as '/' (47); when the
substituted characters coincide, the longer string is the greater
(`return (*one) ? 1 : -1`). -/

/-- sort_dirs_next_to_their_children, on NUL-free byte strings. -/
def sort_dirs_next_to_their_children : List Nat → List Nat → Int
  | a :: as, b :: bs =>
      if a = b then sort_dirs_next_to_their_children as bs
      else (a : Int) - (b : Int)
  | [], [] => -1
  | [], b :: _ => if b = 47 then -1 else 47 - (b : Int)
  | _a :: _, [] => if _a = 47 then 1 else (_a : Int) - 47

/-- Plain strict lexicographic byte order (what the spec means by
byte-wise comparison), with a proper terminated-string semantics:
a strict non-empty extension is greater. -/
def lex_lt : List Nat → List Nat → Bool
  | [], [] => false
  | [], _ :: _ => true
  | _ :: _, [] => false
  | a :: as, b :: bs =>
      if a < b then true else if b < a then false else lex_lt as bs

/-- The spec's comparison for the resolver order: byte-wise comparison
in which the end of either string is compared as the character '/',
i.e. plain lexicographic order after appending a '/' to both. -/
def spec_slash_lt (a b : List Nat) : Bool :=
  lex_lt (a ++ [47]) (b ++ [47])

/-! ### Per-path resolution (process_entry, lines 3437-3784)

The external pieces reached from process_entry enter as oracle
parameters bundled in `resolver_ctx`:
- `content_merge o a b extra` stands for handle_content_merge
  (which delegates to ll_merge and the object store) and returns the
  merged version and its clean flag;
- `renorm_eq` stands for the renormalize-and-compare tail of
  blob_unchanged (read_oid_strbuf + renormalize_buffer + memcmp);
- `uniq keys path branch` stands for unique_path, whose contract
  (it loops appending suffixes until the candidate is free) is that
  the returned path is not among the current keys.
The claims proved below hold for every instantiation of the oracles
(subject only to the stated unique_path contract). -/

/-- Option and oracle context for the resolver. -/
structure resolver_ctx where
  call_depth : Nat
  renormalize : Bool
  content_merge : version_info → version_info → version_info → Nat → version_info × Bool
  renorm_eq : Nat → Nat → Bool
  uniq : List String → String → String → String
  branch1 : String
  branch2 : String

/-- blob_unchanged (lines 3188-3220): modes must agree; equal oids are
unchanged; otherwise the renormalizing comparison decides. -/
def blob_unchanged (renorm_eq : Nat → Nat → Bool) (base side : version_info) : Bool :=
  if base.mode ≠ side.mode then false
  else if base.oid = side.oid then true
  else renorm_eq base.oid side.oid

/-- The part of the two directory/file special cases that zeroes the
directory-related data of a record (lines 3469-3476 and 3514-3522):
`match_mask &= ~dirmask; dirmask = 0;` and null stages for every role
not in filemask. -/
def zero_dir_data (ci : conflict_info) : conflict_info :=
  let c1 := { ci with match_mask := ci.match_mask &&& (7 ^^^ (ci.dirmask &&& 7)),
                      dirmask := 0 }
  let c2 := if c1.filemask &&& 1 = 0 then { c1 with stage0 := null_version } else c1
  let c3 := if c2.filemask &&& 2 = 0 then { c2 with stage1 := null_version } else c2
  if c3.filemask &&& 4 = 0 then { c3 with stage2 := null_version } else c3

/-- State carried by the resolution phase: the PATH MAP and the
UNMERGED MAP (both strmaps; the unmerged map shares its records with
the path map). -/
structure resolver_state where
  paths : strmap
  unmerged : strmap
deriving Repr, DecidableEq

/-- Common tail of process_entry (lines 3774-3783): the record (with
all its in-place mutations) stands in the path map at its current key,
and is additionally registered in the unmerged map iff it is still not
clean.  (record_entry_for_tree only feeds the tree builder and does
not touch either map.) -/
def finalize_entry (st : resolver_state) (path : String) (ci : conflict_info) :
    resolver_state :=
  { paths := smPut st.paths path ci
    unmerged := if ci.merged.clean then st.unmerged else smPut st.unmerged path ci }

/-- The switch-like if/else-if chain of process_entry
(lines 3559-3772), entered after the directory/file special cases;
`df_file_index` is as left by those cases. -/
def process_entry_chain (ctx : resolver_ctx) (st : resolver_state)
    (path : String) (ci : conflict_info) (df_file_index : Nat) : resolver_state :=
  if ci.match_mask ≠ 0 then
    -- C1 of the spec taxonomy: some roles match (lines 3559-3584)
    let ci :=
      if ci.match_mask = 6 then
        { ci with merged.clean := true, merged.result := ci.stage1 }
      else
        let othermask := 7 &&& (7 ^^^ ci.match_mask)
        let side := if othermask = 4 then 2 else 1
        { ci with merged.clean := true,
                  merged.is_null := decide (ci.filemask = ci.match_mask),
                  merged.result := ci.stage side }
    finalize_entry st path ci
  else if 6 ≤ ci.filemask ∧ (ci.stage1.mode &&& s_IFMT) ≠ (ci.stage2.mode &&& s_IFMT) then
    -- distinct types on the two sides (lines 3585-3689)
    if ctx.call_depth ≠ 0 then
      finalize_entry st path
        { ci with merged.clean := false,
                  merged.result := ci.stage0,
                  merged.is_null := decide (ci.stage0.mode = 0) }
    else
      let o_mode := ci.stage0.mode
      let a_mode := ci.stage1.mode
      let b_mode := ci.stage2.mode
      let rab := if s_ISREG a_mode then (true, false)
                 else if s_ISREG b_mode then (false, true)
                 else (true, true)
      let ci0 := { ci with merged.clean := false }
      let new_ci1 := { ci0 with merged.result := ci0.stage2,
                                stage1 := null_version, filemask := 5 }
      let new_ci := if (b_mode &&& s_IFMT) ≠ (o_mode &&& s_IFMT) then
          { new_ci1 with stage0 := null_version, filemask := 4 }
        else new_ci1
      let ci1a := { ci0 with merged.result := ci0.stage1,
                             stage2 := null_version, filemask := 3 }
      let ci1 := if (a_mode &&& s_IFMT) ≠ (o_mode &&& s_IFMT) then
          { ci1a with stage0 := null_version, filemask := 2 }
        else ci1a
      let stA := if rab.1 then
          let a_path := ctx.uniq (smKeys st.paths) path ctx.branch1
          ({ st with paths := smPut st.paths a_path ci1 }, some a_path)
        else (st, none)
      let st1 := stA.1
      let b_path := if rab.2 then ctx.uniq (smKeys st1.paths) path ctx.branch2 else path
      let st2 := { st1 with paths := smPut st1.paths b_path new_ci }
      let st3 := if rab.1 && rab.2 then { st2 with paths := smRemove st2.paths path } else st2
      let st4 := { st3 with unmerged := smPut st3.unmerged b_path new_ci }
      let path2 := match stA.2 with
        | some ap => ap
        | none => path
      finalize_entry st4 path2 ci1
  else if 6 ≤ ci.filemask then
    -- two-way or three-way content merge (lines 3690-3727)
    let mc := ctx.content_merge ci.stage0 ci.stage1 ci.stage2 (ctx.call_depth * 2)
    let merged_file := mc.1
    let clean_merge := mc.2
    let ci2 := { ci with merged.clean := clean_merge && !ci.df_conflict && !ci.path_conflict,
                         merged.result := merged_file,
                         merged.is_null := decide (merged_file.mode = 0) }
    let ci3 := if clean_merge && ci.df_conflict then
        { ci2.setStage df_file_index merged_file with filemask := 1 <<< df_file_index }
      else ci2
    finalize_entry st path ci3
  else if ci.filemask = 3 ∨ ci.filemask = 5 then
    -- modify/delete (lines 3728-3759)
    let side := if ci.filemask = 5 then 2 else 1
    let index := if ctx.call_depth ≠ 0 then 0 else side
    let ci4 := { ci with merged.result := ci.stage index, merged.clean := false }
    let ci5 := if ctx.renormalize && blob_unchanged ctx.renorm_eq ci.stage0 (ci.stage side) then
        { ci4 with merged.is_null := true, merged.clean := true }
      else ci4
    finalize_entry st path ci5
  else if ci.filemask = 2 ∨ ci.filemask = 4 then
    -- added on one side (lines 3760-3765)
    let side := if ci.filemask = 4 then 2 else 1
    finalize_entry st path
      { ci with merged.result := ci.stage side,
                merged.clean := !ci.df_conflict && !ci.path_conflict }
  else if ci.filemask = 1 then
    -- deleted on both sides (lines 3766-3771)
    finalize_entry st path
      { ci with merged.is_null := true,
                merged.result := null_version,
                merged.clean := !ci.path_conflict }
  else
    -- not reachable for well-formed masks (filemask <= 7 is asserted in C);
    -- the fallthrough registers the record unchanged, like the C code would
    finalize_entry st path ci

/-- process_entry (lines 3437-3784): the filemask==0 early return, the
two directory/file special cases (lines 3449-3552), then the
classification chain. -/
def process_entry (ctx : resolver_ctx) (st : resolver_state)
    (path : String) (ci : conflict_info) : resolver_state :=
  if ci.filemask = 0 then st
  else if ci.df_conflict && decide (ci.merged.result.mode = 0) then
    -- directory no longer in the way (lines 3456-3476)
    let ci1 := { zero_dir_data ci with df_conflict := false,
                                       merged.clean := false,
                                       merged.is_null := false }
    process_entry_chain ctx st path ci1 0
  else if ci.df_conflict && decide (ci.merged.result.mode ≠ 0) then
    -- the competing directory survived (lines 3477-3552)
    if ci.filemask = 1 then
      { st with paths := smPut st.paths path { ci with filemask := 0 } }
    else
      let new_ci := zero_dir_data ci
      let df_file_index := if ci.dirmask &&& 2 ≠ 0 then 2 else 1
      let branch := if df_file_index = 1 then ctx.branch1 else ctx.branch2
      let newpath := ctx.uniq (smKeys st.paths) path branch
      let st1 := { st with paths := smPut st.paths newpath new_ci }
      let st2 := { st1 with paths := smPut st1.paths path { ci with filemask := 0 } }
      process_entry_chain ctx st2 newpath new_ci df_file_index
  else
    process_entry_chain ctx st path ci 0

/-- Loop body of process_entries (lines 3828-3848): records that are
already clean are only fed to the tree builder; the rest go through
process_entry. -/
def process_entries_go (ctx : resolver_ctx) (st : resolver_state) :
    List (String × conflict_info) → resolver_state
  | [] => st
  | e :: rest =>
      let st1 := if e.2.merged.clean then st else process_entry ctx st e.1 e.2
      process_entries_go ctx st1 rest

/-- process_entries (lines 3786-3866), restricted to the two maps: the
path map is loaded with every collected record, and the records are
visited in the (reverse sorted) iteration order given by `entries`;
the claims proved below hold for every iteration order, so the
dirs-next-to-their-children sort is not re-modelled here. -/
def process_entries (ctx : resolver_ctx) (entries : List (String × conflict_info)) :
    resolver_state :=
  process_entries_go ctx { paths := entries, unmerged := [] } entries

/-- Overall clean result of merge_ort_nonrecursive_internal
(lines 4366-4384): the clean value coming back from
detect_and_process_renames, ANDed with the emptiness of the unmerged
map. -/
def merge_overall_clean (renames_clean : Bool) (st : resolver_state) : Bool :=
  renames_clean && st.unmerged.isEmpty

/-! ### rename/rename(1to2) handling (process_renames, lines 2417-2494)

The branch of process_renames that handles one source path renamed to
two different target paths.  Its net effect on the three records
(source, side1 target, side2 target): a content merge of the three
stages is distributed to the targets' stages (with the binary-blob
special case), and all three records get path_conflict set.  The
source record is deliberately NOT resolved by removal (the commented
out `base->merged.is_null = 1; base->merged.clean = 1`). -/

/-- Effect of the rename/rename(1to2) branch on
(base record, side1 target record, side2 target record). -/
def process_renames_1to2
    (content_merge : version_info → version_info → version_info → Nat → version_info × Bool)
    (call_depth : Nat)
    (base side1 side2 : conflict_info) :
    conflict_info × conflict_info × conflict_info :=
  let mc := content_merge base.stage0 side1.stage1 side2.stage2 (1 + 2 * call_depth)
  let merged := mc.1
  let clean_merge := mc.2
  let was_binary_blob := !clean_merge &&
    decide (merged.mode = side1.stage1.mode) && decide (merged.oid = side1.stage1.oid)
  let side1a := { side1 with stage1 := merged, path_conflict := true }
  let merged2 := if was_binary_blob then side2.stage2 else merged
  let side2a := { side2 with stage2 := merged2, path_conflict := true }
  let basea := { base with path_conflict := true }
  (basea, side1a, side2a)

/-! ### Collection and tree building for identical input trees (claim on merge(T,T,T))

Pieces of src needed here: collect_merge_info_callback (lines 788-1060)
and write_tree / process_entries (lines 3229-3866).

Modelled from the spec: the object store and the joint tree walk
(read_tree / traverse_trees, which are not part of src).  Per spec §6,
read_tree enumerates (name, mode, oid) entries of a tree object in
lexical order, and per §4.1 the traversal walks the three trees in
lexical-sorted simultaneous order, presenting at each node a 3-bit
present-mask and dir-mask to the callback.  A stored tree object is
therefore modelled as its lexically sorted entry list, and--the store
being content addressed--two tree objects are the same object iff
their entry lists are equal. -/

/-- One (name, mode, oid) entry of a stored tree object; the name is a
NUL-free byte string. -/
structure tree_entry where
  name : List Nat
  mode : Nat
  oid : Nat
deriving Repr, DecidableEq

/-- The struct name_entry data handed to the callback for one role. -/
abbrev name_entry := version_info

/-- S_ISDIR: mode denotes a directory (type bits 0o40000). -/
def s_ISDIR (m : Nat) : Bool := m &&& s_IFMT = 0o40000

/-- Digest of one collect_merge_info_callback invocation:
whether the path was resolved early (with which version and is_null),
whether collect_rename_info ran (line 918, the only place add/delete
candidate pairs can be enqueued from), and whether the callback would
recurse into subtrees (lines 978-1060). -/
structure collect_result where
  resolved : Option (version_info × Bool)
  rename_info_collected : Bool
  needs_recursion : Bool
deriving Repr, DecidableEq

/-- Same mode and oid on two roles of the walk (the mbase/side
comparisons of lines 884-947); absence never matches. -/
def vmatch : Option name_entry → Option name_entry → Bool
  | some b, some s => decide (b.mode = s.mode) && decide (b.oid = s.oid)
  | _, _ => false

/-- Contribution of one role to the dirmask. -/
def dirbit_of : Option name_entry → Nat → Nat
  | some e, b => if s_ISDIR e.mode then b else 0
  | none, _ => 0

/-- collect_merge_info_callback (lines 788-1060) for one path, from
the three per-role entries (none = that role lacks the path).  The
early-resolution tests mirror lines 815-823 and 884-947; a path that
is not early-resolved becomes a pending conflict record, with
recursion iff some role has a directory here. -/
def collect_merge_info_callback (mbase side1 side2 : Option name_entry) : collect_result :=
  let bit : Option name_entry → Nat → Nat := fun o b => if o.isSome then b else 0
  let mask := bit mbase 1 + bit side1 2 + bit side2 4
  let dirmask := dirbit_of mbase 1 + dirbit_of side1 2 + dirbit_of side2 4
  let filemask := mask &&& (7 ^^^ dirmask)
  let mbase_null := mbase.isNone
  let side1_matches_mbase := vmatch mbase side1
  let side2_matches_mbase := vmatch mbase side2
  let sides_match := vmatch side1 side2
  if side1_matches_mbase && side2_matches_mbase then
    -- lines 884-893: all three match, resolve with the base version
    { resolved := some (mbase.getD null_version, mbase_null)
      rename_info_collected := false
      needs_recursion := false }
  else if filemask = 7 && sides_match then
    -- lines 900-908: all files and the sides agree
    { resolved := some (side1.getD null_version, false)
      rename_info_collected := false
      needs_recursion := false }
  else if side1_matches_mbase && filemask = 7 then
    -- lines 926-935, after collect_rename_info
    { resolved := some (side2.getD null_version, side2.isNone)
      rename_info_collected := true
      needs_recursion := false }
  else if side2_matches_mbase && filemask = 7 then
    -- lines 938-947
    { resolved := some (side1.getD null_version, side1.isNone)
      rename_info_collected := true
      needs_recursion := false }
  else
    { resolved := none
      rename_info_collected := true
      needs_recursion := dirmask ≠ 0 }

/-- The collection pass over three identical trees: the lockstep walk
pairs every root entry of T with itself on all three sides. -/
def collect_same (t : List tree_entry) : List (List Nat × collect_result) :=
  t.map (fun e =>
    (e.name, collect_merge_info_callback
      (some { mode := e.mode, oid := e.oid })
      (some { mode := e.mode, oid := e.oid })
      (some { mode := e.mode, oid := e.oid })))

/-- Insert one element into a list before the first element it is
`lt`-below (helper for the sorts of process_entries and write_tree). -/
def insertBy (lt : α → α → Bool) (x : α) : List α → List α
  | [] => [x]
  | y :: ys => if lt x y then x :: y :: ys else y :: insertBy lt x ys

/-- Sort a list by repeated insertion.  QSORT / string_list_sort in
the C source are unstable comparison sorts; any comparison sort
produces the sorted permutation of its input, which is unique here
because the keys being compared are pairwise distinct. -/
def isortBy (lt : α → α → Bool) : List α → List α
  | [] => []
  | x :: xs => insertBy lt x (isortBy lt xs)

/-- write_tree (lines 3229-3282): sort the collected (basename,
version) entries with string_list_sort (plain byte-wise strcmp order)
and serialize them in that order; the serialized entry list determines
the resulting tree object. -/
def write_tree (versions : List (List Nat × version_info)) : List tree_entry :=
  (isortBy (fun a b => lex_lt a.1 b.1) versions).map
    (fun e => { name := e.1, mode := e.2.mode, oid := e.2.oid })

/-- Check that every collected record was early-resolved, returning
the (name, version, is_null) list. -/
def all_resolved : List (List Nat × collect_result) →
    Option (List (List Nat × version_info × Bool))
  | [] => some []
  | (n, r) :: rest =>
      match r.resolved, all_resolved rest with
      | some vb, some l => some ((n, vb) :: l)
      | _, _ => none

/-- The merge pipeline specialised to three identical trees: collect
(no recursion happens: every entry early-resolves), then
process_entries over the resolved records.  All records are clean, so
none is registered as unmerged (line 3844 routes clean records
straight to record_entry_for_tree) and the unmerged map stays empty;
records are visited in reverse dirs-next-to-their-children order, each
non-is_null record contributing its basename and version (lines
3284-3310); the root tree is then written by write_tree.  The second
component is the overall clean value: detect_and_process_renames
returns 1 when no candidate pairs were collected (lines 3000-3003),
and merge_ort_nonrecursive_internal ANDs that with the emptiness of
the unmerged map (line 4384). -/
def merge_trees_same (t : List tree_entry) : Option (List tree_entry) × Bool :=
  let recs := collect_same t
  match all_resolved recs with
  | none => (none, false)
  | some resolved =>
      let plist := isortBy
        (fun a b => sort_dirs_next_to_their_children a.1 b.1 < 0) resolved
      let versions := (plist.reverse.filter (fun e => !e.2.2)).map
        (fun e => (e.1, e.2.1))
      let renames_clean := recs.all (fun e => !e.2.rename_info_collected)
      (some (write_tree versions), renames_clean && true)

/-! ### Concrete witness instances for the oracle hypotheses -/

/-- Concatenation of a list of strings (used to build a unique_path
instance whose freshness is provable by a length argument). -/
def catAll : List String → String
  | [] => ""
  | s :: r => s ++ catAll r

/-- A concrete instantiation of the unique_path oracle: a string
strictly longer than every key, hence fresh. -/
def fresh_by_length (keys : List String) (_path _branch : String) : String :=
  catAll keys ++ "~"

/-- Keys of the not-yet-processed unclean records (helper predicate for
stating the unmerged-map invariant during the resolution fold). -/
def pend_keys (rest : List (String × conflict_info)) : List String :=
  (rest.filter (fun e => !e.2.merged.clean)).map (fun e => e.1)

/-- The unmerged-map characterization, relative to a set `S` of paths
still awaiting processing: a path/record pair is registered as
unmerged iff the path map holds that record, the record is unclean
with nonzero filemask, and the path is not still pending. -/
def inv_except (st : resolver_state) (S : List String) : Prop :=
  ∀ p r, smLookup st.unmerged p = some r ↔
    (smLookup st.paths p = some r ∧ r.merged.clean = false ∧ 0 < r.filemask ∧ p ∉ S)

/-! ### Concrete fixtures used by the witness theorems -/

/-- A concrete content-merge oracle for witnesses: always returns a
fresh unclean blob. -/
def oracle_merge : version_info → version_info → version_info → Nat → version_info × Bool :=
  fun _ _ _ _ => ({ mode := 33188, oid := 99 }, false)

/-- A concrete resolver context for witnesses. -/
def ctx_w : resolver_ctx :=
  { call_depth := 0, renormalize := false,
    content_merge := oracle_merge,
    renorm_eq := fun _ _ => false,
    uniq := fresh_by_length,
    branch1 := "B1", branch2 := "B2" }

/-- A concrete modify/delete record (filemask 3): file present in base
and side1, deleted on side2. -/
def md_rec : conflict_info :=
  { merged := { result := null_version, is_null := false, clean := false }
    stage0 := { mode := 33188, oid := 1 }
    stage1 := { mode := 33188, oid := 2 }
    stage2 := null_version
    filemask := 3, dirmask := 0, match_mask := 0
    df_conflict := false, path_conflict := false }

/-- A concrete record that the collector resolved cleanly. -/
def clean_rec : conflict_info :=
  { merged := { result := { mode := 33188, oid := 3 }, is_null := false, clean := true }
    stage0 := null_version, stage1 := null_version, stage2 := null_version
    filemask := 0, dirmask := 0, match_mask := 0
    df_conflict := false, path_conflict := false }

/-- A concrete directory placeholder record, as the collector creates
for a directory it recurses into (setup_path_info with resolved = 0):
clean stays false and filemask stays 0 for the whole merge. -/
def dir_placeholder_rec : conflict_info :=
  { merged := { result := null_version, is_null := false, clean := false }
    stage0 := { mode := 16384, oid := 11 }
    stage1 := { mode := 16384, oid := 12 }
    stage2 := { mode := 16384, oid := 13 }
    filemask := 0, dirmask := 7, match_mask := 0
    df_conflict := false, path_conflict := false }

/-- Concrete rename/rename(1to2) source record (filemask 1: only the
base still has the file at the source path). -/
def rr_src_rec : conflict_info :=
  { merged := { result := null_version, is_null := false, clean := false }
    stage0 := { mode := 33188, oid := 21 }
    stage1 := null_version, stage2 := null_version
    filemask := 1, dirmask := 0, match_mask := 0
    df_conflict := false, path_conflict := false }

/-- Concrete rename target record on side1 (filemask 2). -/
def rr_tgt1_rec : conflict_info :=
  { merged := { result := null_version, is_null := false, clean := false }
    stage0 := null_version
    stage1 := { mode := 33188, oid := 22 }
    stage2 := null_version
    filemask := 2, dirmask := 0, match_mask := 0
    df_conflict := false, path_conflict := false }

/-- Concrete rename target record on side2 (filemask 4). -/
def rr_tgt2_rec : conflict_info :=
  { merged := { result := null_version, is_null := false, clean := false }
    stage0 := null_version, stage1 := null_version
    stage2 := { mode := 33188, oid := 23 }
    filemask := 4, dirmask := 0, match_mask := 0
    df_conflict := false, path_conflict := false }

/-! ## Theorems -/

theorem smLookup_smPut_self (m : strmap) (k : String) (v : conflict_info) :
    smLookup (smPut m k v) k = some v := by
  induction m with
  | nil => simp [smPut, smLookup]
  | cons e rest ih =>
      obtain ⟨k0, v0⟩ := e
      by_cases h : k0 = k <;> simp [smPut, smLookup, h, ih]

theorem smLookup_smPut_ne (m : strmap) (k q : String) (v : conflict_info)
    (h : q ≠ k) : smLookup (smPut m k v) q = smLookup m q := by
  have h2 : ¬k = q := fun hh => h hh.symm
  induction m with
  | nil => simp [smPut, smLookup, h2]
  | cons e rest ih =>
      obtain ⟨k0, v0⟩ := e
      by_cases h0 : k0 = k
      · subst h0
        simp [smPut, smLookup, h2]
      · by_cases hq : k0 = q <;> simp [smPut, smLookup, h0, hq, h, h2, ih]

theorem smLookup_smRemove_self (m : strmap) (k : String) :
    smLookup (smRemove m k) k = none := by
  induction m with
  | nil => simp [smRemove, smLookup]
  | cons e rest ih =>
      obtain ⟨k0, v0⟩ := e
      by_cases h : k0 = k <;> simp_all [smRemove, smLookup, h]

theorem smLookup_smRemove_ne (m : strmap) (k q : String) (h : q ≠ k) :
    smLookup (smRemove m k) q = smLookup m q := by
  induction m with
  | nil => simp [smRemove, smLookup]
  | cons e rest ih =>
      obtain ⟨k0, v0⟩ := e
      simp only [smRemove, List.filter_cons, ne_eq, decide_not] at ih ⊢
      by_cases h0 : k0 = k
      · subst h0
        have hkq : ¬k0 = q := fun hh => h (hh ▸ rfl)
        simp [smLookup, hkq, ih]
      · by_cases hq : k0 = q
        · subst hq
          simp [smLookup, h0, ih]
        · simp [smLookup, h0, hq, ih]

theorem mem_smKeys_of_smLookup (m : strmap) (k : String) (v : conflict_info)
    (h : smLookup m k = some v) : k ∈ smKeys m := by
  induction m with
  | nil => simp [smLookup] at h
  | cons e rest ih =>
      obtain ⟨k0, v0⟩ := e
      by_cases h0 : k0 = k
      · subst h0; simp [smKeys]
      · simp only [smLookup, if_neg h0] at h
        simpa [smKeys] using Or.inr (by simpa [smKeys] using ih h)

theorem smLookup_eq_none_of_not_mem (m : strmap) (k : String)
    (h : k ∉ smKeys m) : smLookup m k = none := by
  induction m with
  | nil => simp [smLookup]
  | cons e rest ih =>
      obtain ⟨k0, v0⟩ := e
      simp [smKeys] at h
      have hk0 : ¬k0 = k := fun hh => h.1 hh.symm
      simp only [smLookup, if_neg hk0]
      exact ih (by simpa [smKeys] using h.2)

theorem mem_smKeys_smPut_self (m : strmap) (k : String) (v : conflict_info) :
    k ∈ smKeys (smPut m k v) :=
  mem_smKeys_of_smLookup _ _ _ (smLookup_smPut_self m k v)

theorem mem_smKeys_smPut_of_mem (m : strmap) (k q : String) (v : conflict_info)
    (h : q ∈ smKeys m) : q ∈ smKeys (smPut m k v) := by
  induction m with
  | nil => simp [smKeys] at h
  | cons e rest ih =>
      obtain ⟨k0, v0⟩ := e
      by_cases h0 : k0 = k
      · subst h0
        simpa [smPut, smKeys] using (by simpa [smKeys] using h)
      · simp only [smKeys, List.map, List.mem_cons] at h
        rcases h with h | h
        · simp [smPut, h0, smKeys, h]
        · simp [smPut, h0, smKeys]
          exact Or.inr (by simpa [smKeys] using ih (by simpa [smKeys] using h))

theorem length_le_catAll (keys : List String) (s : String) (h : s ∈ keys) :
    s.length ≤ (catAll keys).length := by
  induction keys with
  | nil => simp at h
  | cons a rest ih =>
      rcases List.mem_cons.mp h with h | h
      · subst h
        simp [catAll, String.length_append]
      · have := ih h
        simp [catAll, String.length_append]
        omega

theorem fresh_by_length_fresh (keys : List String) (p b : String) :
    fresh_by_length keys p b ∉ keys := by
  intro hmem
  have h1 := length_le_catAll keys _ hmem
  have h2 : (fresh_by_length keys p b).length = (catAll keys).length + 1 := by
    simp [fresh_by_length, String.length_append]
    rfl
  omega

theorem lex_lt_irrefl (a : List Nat) : lex_lt a a = false := by
  induction a with
  | nil => rfl
  | cons x xs ih => simp [lex_lt, ih]

theorem lex_lt_asymm : ∀ a b : List Nat, lex_lt a b = true → lex_lt b a = false
  | [], [], h => by simp [lex_lt] at h
  | [], _ :: _, _ => rfl
  | _ :: _, [], h => by simp [lex_lt] at h
  | x :: xs, y :: ys, h => by
      by_cases hxy : x < y
      · simp [lex_lt, hxy, Nat.lt_asymm hxy, Nat.ne_of_gt hxy]
      · by_cases hyx : y < x
        · simp [lex_lt, hxy, hyx] at h
        · simp only [lex_lt, if_neg hxy, if_neg hyx] at h
          simp only [lex_lt, if_neg hyx, if_neg hxy]
          exact lex_lt_asymm xs ys h

theorem lex_lt_total : ∀ a b : List Nat, a ≠ b → lex_lt a b = true ∨ lex_lt b a = true
  | [], [], h => absurd rfl h
  | [], _ :: _, _ => Or.inl rfl
  | _ :: _, [], _ => Or.inr rfl
  | x :: xs, y :: ys, h => by
      by_cases hxy : x < y
      · exact Or.inl (by simp [lex_lt, hxy])
      · by_cases hyx : y < x
        · exact Or.inr (by simp [lex_lt, hyx])
        · have hx : x = y := Nat.le_antisymm (Nat.le_of_not_lt hyx) (Nat.le_of_not_lt hxy)
          subst hx
          have hne : xs ≠ ys := fun hh => h (by rw [hh])
          rcases lex_lt_total xs ys hne with h1 | h1
          · exact Or.inl (by simpa [lex_lt, Nat.lt_irrefl] using h1)
          · exact Or.inr (by simpa [lex_lt, Nat.lt_irrefl] using h1)

theorem lex_lt_trans : ∀ a b c : List Nat,
    lex_lt a b = true → lex_lt b c = true → lex_lt a c = true
  | [], _, _ :: _, _, _ => rfl
  | [], b, [], _, hbc => by
      cases b <;> simp [lex_lt] at hbc
  | _ :: _, [], _, hab, _ => by simp [lex_lt] at hab
  | _ :: _, _ :: _, [], _, hbc => by simp [lex_lt] at hbc
  | x :: xs, y :: ys, z :: zs, hab, hbc => by
      by_cases hxy : x < y
      · by_cases hyz : y < z
        · simp [lex_lt, Nat.lt_trans hxy hyz]
        · by_cases hzy : z < y
          · simp only [lex_lt, if_neg hyz, if_pos hzy] at hbc
            exact Bool.noConfusion hbc
          · have : y = z := Nat.le_antisymm (Nat.le_of_not_lt hzy) (Nat.le_of_not_lt hyz)
            subst this
            simp [lex_lt, hxy]
      · by_cases hyx : y < x
        · simp [lex_lt, hxy, hyx] at hab
        · have hx : x = y := Nat.le_antisymm (Nat.le_of_not_lt hyx) (Nat.le_of_not_lt hxy)
          subst hx
          by_cases hyz : x < z
          · simp [lex_lt, hyz]
          · by_cases hzy : z < x
            · simp only [lex_lt, if_neg hyz, if_pos hzy] at hbc
              exact Bool.noConfusion hbc
            · have : x = z := Nat.le_antisymm (Nat.le_of_not_lt hzy) (Nat.le_of_not_lt hyz)
              subst this
              simp only [lex_lt, if_neg hyz, Nat.lt_irrefl, if_neg (fun h => Nat.lt_irrefl _ h)] at hab hbc ⊢
              exact lex_lt_trans xs ys zs hab hbc

theorem lex_lt_nil_right : ∀ l : List Nat, lex_lt l [] = false
  | [] => rfl
  | _ :: _ => rfl

theorem sdn_append (d x y : List Nat) :
    sort_dirs_next_to_their_children (d ++ x) (d ++ y) =
      sort_dirs_next_to_their_children x y := by
  induction d with
  | nil => rfl
  | cons c cs ih => simpa [sort_dirs_next_to_their_children] using ih

theorem sdn_neg_iff : ∀ a b : List Nat, a ≠ b →
    (sort_dirs_next_to_their_children a b < 0 ↔ spec_slash_lt a b = true)
  | [], [], h => absurd rfl h
  | [], b :: bs, _ => by
      by_cases hb : b = 47
      · subst hb
        constructor
        · intro _
          cases bs <;> simp [spec_slash_lt, lex_lt]
        · intro _
          simp [sort_dirs_next_to_their_children]
      · by_cases h47 : 47 < b
        · simp [sort_dirs_next_to_their_children, spec_slash_lt, lex_lt, hb, h47]
        · have hlt : b < 47 := by omega
          simp [sort_dirs_next_to_their_children, spec_slash_lt, lex_lt, hb, h47, hlt]
  | a :: as, [], _ => by
      by_cases ha : a = 47
      · subst ha
        simp [sort_dirs_next_to_their_children, spec_slash_lt, lex_lt, lex_lt_nil_right]
      · by_cases h47 : a < 47
        · simp [sort_dirs_next_to_their_children, spec_slash_lt, lex_lt, ha, h47]
        · have hgt : 47 < a := by omega
          simp [sort_dirs_next_to_their_children, spec_slash_lt, lex_lt, ha, h47, hgt]
  | a :: as, b :: bs, h => by
      by_cases hab : a = b
      · subst hab
        have hne : as ≠ bs := fun hh => h (by rw [hh])
        have := sdn_neg_iff as bs hne
        simpa [sort_dirs_next_to_their_children, spec_slash_lt, lex_lt] using this
      · by_cases hlt : a < b
        · simp [sort_dirs_next_to_their_children, spec_slash_lt, lex_lt, hab, hlt]
        · have hgt : b < a := by omega
          simp [sort_dirs_next_to_their_children, spec_slash_lt, lex_lt, hab, hlt, hgt]

theorem sdn_ne_zero : ∀ a b : List Nat, sort_dirs_next_to_their_children a b ≠ 0
  | [], [] => by simp [sort_dirs_next_to_their_children]
  | [], b :: bs => by
      by_cases hb : b = 47 <;> simp [sort_dirs_next_to_their_children, hb] <;> omega
  | a :: as, [] => by
      by_cases ha : a = 47 <;> simp [sort_dirs_next_to_their_children, ha] <;> omega
  | a :: as, b :: bs => by
      by_cases hab : a = b
      · subst hab
        simpa [sort_dirs_next_to_their_children] using sdn_ne_zero as bs
      · simp [sort_dirs_next_to_their_children, hab]
        omega

theorem spec_slash_lt_asymm (a b : List Nat) (h : spec_slash_lt a b = true) :
    spec_slash_lt b a = false := by
  simpa [spec_slash_lt] using lex_lt_asymm _ _ (by simpa [spec_slash_lt] using h)

theorem spec_slash_lt_total (a b : List Nat) (h : a ≠ b) :
    spec_slash_lt a b = true ∨ spec_slash_lt b a = true := by
  have hne : a ++ [47] ≠ b ++ [47] := fun hh => h (List.append_left_injective _ hh)
  simpa [spec_slash_lt] using lex_lt_total (a ++ [47]) (b ++ [47]) hne

theorem sdn_pos_iff (a b : List Nat) (h : a ≠ b) :
    (0 < sort_dirs_next_to_their_children a b ↔ spec_slash_lt b a = true) := by
  constructor
  · intro hpos
    have hnneg : ¬sort_dirs_next_to_their_children a b < 0 := by omega
    have h1 : spec_slash_lt a b = false := by
      rcases hspec : spec_slash_lt a b with _ | _
      · rfl
      · exact absurd ((sdn_neg_iff a b h).mpr hspec) hnneg
    rcases spec_slash_lt_total a b h with h2 | h2
    · rw [h1] at h2; exact Bool.noConfusion h2
    · exact h2
  · intro hspec
    have h1 : spec_slash_lt a b = false := spec_slash_lt_asymm b a hspec
    have h2 : ¬sort_dirs_next_to_their_children a b < 0 := by
      intro hneg
      have := (sdn_neg_iff a b h).mp hneg
      rw [h1] at this; exact Bool.noConfusion this
    have h3 := sdn_ne_zero a b
    omega

/-- C5: in the content merge, for any two same-typed side versions:
if side1's mode equals side2's mode or side1's mode equals the base
mode, the result mode is side2's mode; otherwise the result mode is
side1's mode and the merge is marked unclean iff side2's mode differs
from the base mode (handle_content_merge, lines 1642-1664). -/
theorem c5_mode_merge_rule (o a b : Nat)
    (_hsame : a &&& s_IFMT = b &&& s_IFMT) :
    ((a = b ∨ a = o) → handle_content_merge_modes o a b = (b, true)) ∧
    (¬(a = b ∨ a = o) →
       (handle_content_merge_modes o a b).1 = a ∧
       ((handle_content_merge_modes o a b).2 = false ↔ b ≠ o)) := by
  unfold handle_content_merge_modes
  constructor
  · intro h
    simp [h]
  · intro h
    simp [h]

/-- Witness for c5_mode_merge_rule at the 0o100755/0o100644 mode pair
(the case the FIXME comment in the source calls the 100644/100755
case). -/
theorem c5_mode_merge_rule_witness :
    ((33261 : Nat) &&& s_IFMT = (33188 : Nat) &&& s_IFMT) ∧
    ((handle_content_merge_modes 33188 33261 33188).1 = 33261 ∧
     ((handle_content_merge_modes 33188 33261 33188).2 = false ↔ (33188 : Nat) ≠ 33188)) :=
  ⟨by decide, (c5_mode_merge_rule 33188 33261 33188 (by decide)).2 (by decide)⟩

/-- C7 as stated is false: with a pre-deferral path count of 1 and a
post-deferral count of 20 the code sets redo_after_renames and
cached_pairs_valid_side = -1, although the count did not shrink to
less than one tenth of its pre-deferral size (it grew). -/
theorem c7_redo_trigger_counterexample :
    (handle_deferred_redo 1 20
        { redo_after_renames := 0, cached_pairs_valid_side := 0 }).redo_after_renames = 1 ∧
    (handle_deferred_redo 1 20
        { redo_after_renames := 0, cached_pairs_valid_side := 0 }).cached_pairs_valid_side = -1 ∧
    ¬((20 : Nat) < 1 / 10) := by
  refine ⟨rfl, rfl, by decide⟩

/-- C7 amended: the redo of the collection phase is triggered when
handling deferred entries makes the path count GROW past wanted_factor
(10) times its pre-deferral size, i.e. when the pre-deferral count is
less than 1/10 of the post-deferral count (with C integer division:
path_count_after / path_count_before > 10, equivalently
11 * before <= after); in that case redo_after_renames is set and
cached_pairs_valid_side becomes -1, and once rename detection has
populated the cache the collection phase is redone exactly once
(two collection passes in total); otherwise no redo occurs. -/
theorem c7_redo_trigger_amended (pcb pca : Nat) (hb : 0 < pcb) (ha : 0 < pca)
    (detection_ran : Bool) :
    ((handle_deferred_redo pcb pca
        { redo_after_renames := 0, cached_pairs_valid_side := 0 }).redo_after_renames = 1 ∧
     (handle_deferred_redo pcb pca
        { redo_after_renames := 0, cached_pairs_valid_side := 0 }).cached_pairs_valid_side = -1
      ↔ 11 * pcb ≤ pca) ∧
    (¬11 * pcb ≤ pca →
       handle_deferred_redo pcb pca
         { redo_after_renames := 0, cached_pairs_valid_side := 0 } =
       { redo_after_renames := 0, cached_pairs_valid_side := 0 }) ∧
    (11 * pcb ≤ pca → detection_ran = true →
       (redo_driver pcb pca detection_ran).2 = 2 ∧
       (redo_driver pcb pca detection_ran).1.redo_after_renames = 0) ∧
    (¬11 * pcb ≤ pca → (redo_driver pcb pca detection_ran).2 = 1) := by
  have hne : pca ≠ 0 := Nat.pos_iff_ne_zero.mp ha
  have hiff : (10 < pca / pcb) ↔ 11 * pcb ≤ pca := by
    constructor
    · intro h
      have h11 : 11 ≤ pca / pcb := h
      exact (Nat.le_div_iff_mul_le hb).mp h11
    · intro h
      have h11 : 11 ≤ pca / pcb := (Nat.le_div_iff_mul_le hb).mpr h
      omega
  by_cases hd : 10 < pca / pcb
  · have h11 : 11 * pcb ≤ pca := hiff.mp hd
    refine ⟨?_, ?_, ?_, ?_⟩
    · simp [handle_deferred_redo, hne, hd, h11]
    · intro hcon; exact absurd h11 hcon
    · intro _ hdet
      subst hdet
      simp [redo_driver, handle_deferred_redo, hne, hd, detect_regular_renames_redo]
    · intro hcon; exact absurd h11 hcon
  · have h11 : ¬11 * pcb ≤ pca := fun hc => hd (hiff.mpr hc)
    refine ⟨?_, ?_, ?_, ?_⟩
    · simp [handle_deferred_redo, hne, hd, h11]
    · intro _
      simp [handle_deferred_redo, hne, hd]
    · intro hc; exact absurd hc h11
    · intro _
      cases detection_ran <;>
        simp [redo_driver, handle_deferred_redo, hne, hd, detect_regular_renames_redo]

/-- Witness for c7_redo_trigger_amended at pre-deferral count 1,
post-deferral count 22, detection run. -/
theorem c7_redo_trigger_amended_witness :
    (0 < 1 ∧ 0 < 22) ∧
    (((handle_deferred_redo 1 22
        { redo_after_renames := 0, cached_pairs_valid_side := 0 }).redo_after_renames = 1 ∧
      (handle_deferred_redo 1 22
        { redo_after_renames := 0, cached_pairs_valid_side := 0 }).cached_pairs_valid_side = -1
       ↔ 11 * 1 ≤ 22) ∧
     (¬11 * 1 ≤ 22 →
        handle_deferred_redo 1 22
          { redo_after_renames := 0, cached_pairs_valid_side := 0 } =
        { redo_after_renames := 0, cached_pairs_valid_side := 0 }) ∧
     (11 * 1 ≤ 22 → true = true →
        (redo_driver 1 22 true).2 = 2 ∧
        (redo_driver 1 22 true).1.redo_after_renames = 0) ∧
     (¬11 * 1 ≤ 22 → (redo_driver 1 22 true).2 = 1)) :=
  ⟨⟨by decide, by decide⟩, c7_redo_trigger_amended 1 22 (by decide) (by decide) true⟩

/-- C9: the path ordering used by the resolver is, on every pair of
distinct paths, exactly byte-wise comparison in which the end of
either string is compared as the character '/' (byte 47); and in any
list sorted by that comparator every path strictly below a directory
sits strictly after the directory entry, so the reverse walk of
process_entries handles it before the directory itself. -/
theorem c9_resolver_path_order :
    (∀ a b : List Nat, a ≠ b →
       ((sort_dirs_next_to_their_children a b < 0 ↔ spec_slash_lt a b = true) ∧
        (0 < sort_dirs_next_to_their_children a b ↔ spec_slash_lt b a = true))) ∧
    (∀ (l : List (List Nat)) (d rest : List Nat),
       l.Pairwise (fun x y => sort_dirs_next_to_their_children x y < 0) →
       ∀ i j : Fin l.length, l.get i = d ++ 47 :: rest → l.get j = d → j < i) := by
  constructor
  · intro a b h
    exact ⟨sdn_neg_iff a b h, sdn_pos_iff a b h⟩
  · intro l d rest hpw i j hi hj
    have hval : sort_dirs_next_to_their_children (d ++ 47 :: rest) d = 1 := by
      have h0 := sdn_append d (47 :: rest) []
      rw [List.append_nil] at h0
      rw [h0]
      simp [sort_dirs_next_to_their_children]
    rcases Nat.lt_trichotomy i.1 j.1 with hlt | heq | hgt
    · exfalso
      have hpg := (List.pairwise_iff_get.mp hpw) i j hlt
      rw [hi, hj] at hpg
      omega
    · exfalso
      have hij : i = j := Fin.ext heq
      rw [hij] at hi
      rw [hj] at hi
      have : d.length = d.length + rest.length + 1 := by
        have := congrArg List.length hi
        simpa using this.symm
      omega
    · exact Fin.lt_def.mpr hgt

/-- Witness for c9_resolver_path_order: "foo" vs "foo.txt" for the
comparator characterization, and the sorted list ["a", "a/b"] for the
children-processed-first consequence. -/
theorem c9_resolver_path_order_witness :
    (([102, 111, 111] : List Nat) ≠ [102, 111, 111, 46, 116, 120, 116] ∧
     (sort_dirs_next_to_their_children [102, 111, 111] [102, 111, 111, 46, 116, 120, 116] < 0 ↔
        spec_slash_lt [102, 111, 111] [102, 111, 111, 46, 116, 120, 116] = true)) ∧
    ((⟨0, by decide⟩ : Fin 2) < (⟨1, by decide⟩ : Fin 2)) :=
  ⟨⟨by decide, (c9_resolver_path_order.1 _ _ (by decide)).1⟩,
   c9_resolver_path_order.2 [[97], [97, 47, 98]] [97] [98]
     (by decide) ⟨1, by decide⟩ ⟨0, by decide⟩ (by decide) (by decide)⟩

theorem max_count_append (l : List (String × Nat)) (e : String × Nat) :
    max_count (l ++ [e]) = Nat.max (max_count l) e.2 := by
  simp [max_count, List.foldl_append]

theorem le_max_count (l : List (String × Nat)) (e : String × Nat) (h : e ∈ l) :
    e.2 ≤ max_count l := by
  induction l using List.reverseRecOn with
  | nil => simp at h
  | append_singleton l x ih =>
      rw [max_count_append]
      rcases List.mem_append.mp h with h | h
      · exact le_trans (ih h) (Nat.le_max_left _ _)
      · simp at h
        subst h
        exact Nat.le_max_right _ _

theorem count_at_append (l : List (String × Nat)) (e : String × Nat) (v : Nat) :
    count_at (l ++ [e]) v = count_at l v + if e.2 = v then 1 else 0 := by
  by_cases h : e.2 = v <;> simp [count_at, List.countP_append, List.countP_cons, h]

theorem count_at_eq_zero_of_lt (l : List (String × Nat)) (v : Nat)
    (h : max_count l < v) : count_at l v = 0 := by
  rw [count_at, List.countP_eq_zero]
  intro e he
  have := le_max_count l e he
  simp only [decide_eq_true_eq]
  omega

theorem one_le_count_at (l : List (String × Nat)) (e : String × Nat)
    (h : e ∈ l) : 1 ≤ count_at l e.2 := by
  have hpos : 0 < List.countP (fun x => decide (x.2 = e.2)) l :=
    List.countP_pos.mpr ⟨e, h, by simp⟩
  simpa [count_at] using hpos

theorem two_le_countP_of_two_mem {α : Type} (p : α → Bool) (l : List α) (a b : α)
    (ha : a ∈ l) (hb : b ∈ l) (hab : a ≠ b) (hpa : p a = true) (hpb : p b = true) :
    2 ≤ l.countP p := by
  induction l with
  | nil => simp at ha
  | cons x xs ih =>
      rcases List.mem_cons.mp ha with hax | hax
      · subst hax
        have hbx : b ∈ xs := by
          rcases List.mem_cons.mp hb with h | h
          · exact absurd h.symm hab
          · exact h
        have h1 : 1 ≤ xs.countP p := List.countP_pos.mpr ⟨b, hbx, hpb⟩
        rw [List.countP_cons, if_pos hpa]
        omega
      · rcases List.mem_cons.mp hb with hbx | hbx
        · subst hbx
          have h1 : 1 ≤ xs.countP p := List.countP_pos.mpr ⟨a, hax, hpa⟩
          rw [List.countP_cons, if_pos hpb]
          omega
        · have := ih hax hbx
          rw [List.countP_cons]
          omega

theorem dir_rename_fold_spec (counts : List (String × Nat)) :
    (dir_rename_fold counts).1 = max_count counts ∧
    (0 < max_count counts →
       ∃ bk, (dir_rename_fold counts).2.2 = some bk ∧ (bk, max_count counts) ∈ counts) ∧
    (0 < max_count counts →
       ((dir_rename_fold counts).2.1 = max_count counts ↔
          2 ≤ count_at counts (max_count counts))) ∧
    (dir_rename_fold counts).2.1 ≤ max_count counts := by
  induction counts using List.reverseRecOn with
  | nil => simp [dir_rename_fold, max_count]
  | append_singleton l e ih =>
      obtain ⟨ih1, ih2, ih3, ih4⟩ := ih
      have hstep : dir_rename_fold (l ++ [e]) =
          (if e.2 = (dir_rename_fold l).1 then
            ((dir_rename_fold l).1, (dir_rename_fold l).1, (dir_rename_fold l).2.2)
          else if e.2 > (dir_rename_fold l).1 then
            (e.2, (dir_rename_fold l).2.1, some e.1)
          else dir_rename_fold l) := by
        rw [dir_rename_fold, List.foldl_append]
        rfl
      rw [max_count_append]
      by_cases h1 : e.2 = (dir_rename_fold l).1
      · -- count equals the running max: record the tie
        rw [hstep, if_pos h1]
        rw [ih1] at h1
        have hmax : Nat.max (max_count l) e.2 = max_count l := Nat.max_eq_left (by omega)
        rw [hmax]
        refine ⟨ih1, ?_, ?_, le_of_eq ih1⟩
        · intro hpos
          obtain ⟨bk, hbk1, hbk2⟩ := ih2 hpos
          exact ⟨bk, hbk1, List.mem_append.mpr (Or.inl hbk2)⟩
        · intro hpos
          rw [count_at_append, if_pos (by omega : e.2 = max_count l)]
          constructor
          · intro _
            obtain ⟨bk, _, hbk2⟩ := ih2 hpos
            have hone : 1 ≤ count_at l (max_count l) := one_le_count_at l (bk, max_count l) hbk2
            omega
          · intro _
            exact ih1
      · by_cases h2 : e.2 > (dir_rename_fold l).1
        · -- new strict maximum
          rw [hstep, if_neg h1, if_pos h2]
          rw [ih1] at h2
          have hmax : Nat.max (max_count l) e.2 = e.2 := Nat.max_eq_right (by omega)
          rw [hmax]
          refine ⟨rfl, ?_, ?_, ?_⟩
          · intro _
            exact ⟨e.1, rfl, List.mem_append.mpr (Or.inr (by simp))⟩
          · intro _
            rw [count_at_append, if_pos rfl]
            have hz : count_at l e.2 = 0 := count_at_eq_zero_of_lt l e.2 h2
            constructor
            · intro hb
              have hb2 : (dir_rename_fold l).2.1 = e.2 := hb
              omega
            · intro hb
              exfalso
              omega
          · show (dir_rename_fold l).2.1 ≤ e.2
            omega
        · -- count below the running max: no change
          rw [hstep, if_neg h1, if_neg h2]
          rw [ih1] at h1 h2
          have hmax : Nat.max (max_count l) e.2 = max_count l := Nat.max_eq_left (by omega)
          rw [hmax]
          refine ⟨ih1, ?_, ?_, ih4⟩
          · intro hpos
            obtain ⟨bk, hbk1, hbk2⟩ := ih2 hpos
            exact ⟨bk, hbk1, List.mem_append.mpr (Or.inl hbk2)⟩
          · intro hpos
            rw [count_at_append, if_neg (by omega : ¬e.2 = max_count l)]
            simpa using ih3 hpos

theorem max_count_pos (counts : List (String × Nat)) (hne : counts ≠ [])
    (hpos : ∀ e ∈ counts, 1 ≤ e.2) : 0 < max_count counts := by
  rcases counts with _ | ⟨c, rest⟩
  · exact absurd rfl hne
  · have h1 := hpos c (by simp)
    have h2 := le_max_count (c :: rest) c (by simp)
    omega

theorem dir_rename_for_spec (counts : List (String × Nat)) (hne : counts ≠ [])
    (hpos : ∀ e ∈ counts, 1 ≤ e.2) :
    (has_tie counts = true → dir_rename_for counts = (none, false, true)) ∧
    (has_tie counts = false →
       ∃ best, dir_rename_for counts = (some best, true, false) ∧
         (best, max_count counts) ∈ counts ∧
         ∀ e ∈ counts, e.1 ≠ best → e.2 < max_count counts) := by
  obtain ⟨s1, s2, s3, s4⟩ := dir_rename_fold_spec counts
  have hM : 0 < max_count counts := max_count_pos counts hne hpos
  have hM0 : ¬(dir_rename_fold counts).1 = 0 := by omega
  constructor
  · intro htie
    have htie2 : 2 ≤ count_at counts (max_count counts) := by
      simpa [has_tie] using htie
    have hbad : (dir_rename_fold counts).2.1 = (dir_rename_fold counts).1 := by
      rw [s1]
      exact (s3 hM).mpr htie2
    simp only [dir_rename_for]
    rw [if_neg hM0, if_pos hbad]
  · intro hnotie
    have hnotie2 : ¬2 ≤ count_at counts (max_count counts) := by
      simpa [has_tie] using hnotie
    have hbad : ¬(dir_rename_fold counts).2.1 = (dir_rename_fold counts).1 := by
      rw [s1]
      intro hc
      exact hnotie2 ((s3 hM).mp hc)
    obtain ⟨bk, hbk1, hbk2⟩ := s2 hM
    refine ⟨bk, ?_, hbk2, ?_⟩
    · simp only [dir_rename_for]
      rw [if_neg hM0, if_neg hbad, hbk1]
    · intro e he hne1
      have hle : e.2 ≤ max_count counts := le_max_count counts e he
      rcases Nat.lt_or_ge e.2 (max_count counts) with hlt | hge
      · exact hlt
      · exfalso
        have heM : e.2 = max_count counts := by omega
        have : 2 ≤ count_at counts (max_count counts) := by
          have := two_le_countP_of_two_mem (fun x => decide (x.2 = max_count counts))
            counts e (bk, max_count counts) he hbk2
            (by intro hc; rw [hc] at hne1; simp at hne1)
            (by simp [heM]) (by simp)
          simpa [count_at] using this
        exact hnotie2 this

theorem gdr_append (dirs : List (String × List (String × Nat)))
    (d : String × List (String × Nat)) :
    get_directory_renames (dirs ++ [d]) =
      ((match (dir_rename_for d.2).1 with
        | some best => (get_directory_renames dirs).1 ++ [(d.1, best)]
        | none => (get_directory_renames dirs).1),
       (get_directory_renames dirs).2 && (dir_rename_for d.2).2.1) := by
  rw [get_directory_renames, List.foldl_append]
  rfl

theorem gdr_mem (dirs : List (String × List (String × Nat))) (x best : String) :
    (x, best) ∈ (get_directory_renames dirs).1 ↔
      ∃ c, (x, c) ∈ dirs ∧ (dir_rename_for c).1 = some best := by
  induction dirs using List.reverseRecOn with
  | nil =>
      simp [get_directory_renames]
  | append_singleton l d ih =>
      rw [gdr_append]
      rcases hd : (dir_rename_for d.2).1 with _ | b
      · constructor
        · intro hmem
          obtain ⟨c, hc1, hc2⟩ := ih.mp hmem
          exact ⟨c, List.mem_append.mpr (Or.inl hc1), hc2⟩
        · rintro ⟨c, hc1, hc2⟩
          rcases List.mem_append.mp hc1 with h | h
          · exact ih.mpr ⟨c, h, hc2⟩
          · exfalso
            have hcd : (x, c) = d := by simpa using h
            rw [← hcd] at hd
            rw [hd] at hc2
            exact Option.noConfusion hc2
      · constructor
        · intro hmem
          rcases List.mem_append.mp hmem with h | h
          · obtain ⟨c, hc1, hc2⟩ := ih.mp h
            exact ⟨c, List.mem_append.mpr (Or.inl hc1), hc2⟩
          · have hxd : (x, best) = (d.1, b) := by simpa using h
            obtain ⟨hx, hb⟩ : x = d.1 ∧ best = b := by
              injection hxd with hx hb
              exact ⟨hx, hb⟩
            refine ⟨d.2, List.mem_append.mpr (Or.inr ?_), ?_⟩
            · simp [Prod.ext_iff, hx]
            · rw [hd, hb]
        · rintro ⟨c, hc1, hc2⟩
          rcases List.mem_append.mp hc1 with h | h
          · exact List.mem_append.mpr (Or.inl (ih.mpr ⟨c, h, hc2⟩))
          · have hcd : (x, c) = d := by simpa using h
            obtain ⟨hx, hcc⟩ : x = d.1 ∧ c = d.2 := by
              rw [← hcd]
              exact ⟨rfl, rfl⟩
            rw [hcc, hd] at hc2
            have hb : b = best := Option.some.inj hc2
            exact List.mem_append.mpr (Or.inr (by simp [Prod.ext_iff, hx, hb.symm]))

theorem gdr_clean (dirs : List (String × List (String × Nat))) :
    (get_directory_renames dirs).2 = dirs.all (fun d => (dir_rename_for d.2).2.1) := by
  induction dirs using List.reverseRecOn with
  | nil => simp [get_directory_renames]
  | append_singleton l d ih =>
      rw [gdr_append]
      simp [ih, List.all_append]

theorem nodup_keys_eq {β : Type} (dirs : List (String × β)) (x : String) (c1 c2 : β)
    (hkeys : (dirs.map (fun d => d.1)).Nodup)
    (h1 : (x, c1) ∈ dirs) (h2 : (x, c2) ∈ dirs) : c1 = c2 := by
  induction dirs with
  | nil => simp at h1
  | cons d rest ih =>
      simp only [List.map_cons, List.nodup_cons] at hkeys
      rcases List.mem_cons.mp h1 with ha | ha
      · rcases List.mem_cons.mp h2 with hb | hb
        · rw [← ha] at hb
          injection hb with _ hc
          exact hc.symm
        · exfalso
          apply hkeys.1
          rw [← ha]
          exact List.mem_map.mpr ⟨(x, c2), hb, rfl⟩
      · rcases List.mem_cons.mp h2 with hb | hb
        · exfalso
          apply hkeys.1
          rw [← hb]
          exact List.mem_map.mpr ⟨(x, c1), ha, rfl⟩
        · exact ih hkeys.2 ha hb

/-- C3: when collapsing dir_rename_count for a side, if for some old
directory two distinct new directories attain the same nonzero maximum
count, the "directory rename split" diagnostic is emitted, the overall
merge is marked unclean, and no directory-rename mapping from that old
directory is installed; otherwise the old directory is mapped to the
unique new directory with strictly maximum count
(get_directory_renames, lines 1886-1948). -/
theorem c3_directory_rename_split
    (dirs : List (String × List (String × Nat)))
    (hwf : ∀ d ∈ dirs, d.2 ≠ [] ∧ ∀ e ∈ d.2, 1 ≤ e.2)
    (hkeys : (dirs.map (fun d => d.1)).Nodup) :
    ∀ d ∈ dirs,
      (has_tie d.2 = true →
         (dir_rename_for d.2).2.2 = true ∧
         (get_directory_renames dirs).2 = false ∧
         (∀ st renames_clean2,
            merge_overall_clean ((get_directory_renames dirs).2 && renames_clean2) st = false) ∧
         ∀ y, (d.1, y) ∉ (get_directory_renames dirs).1) ∧
      (has_tie d.2 = false →
         ∃ best, (d.1, best) ∈ (get_directory_renames dirs).1 ∧
           (∀ y, (d.1, y) ∈ (get_directory_renames dirs).1 → y = best) ∧
           (best, max_count d.2) ∈ d.2 ∧
           ∀ e ∈ d.2, e.1 ≠ best → e.2 < max_count d.2) := by
  intro d hd
  obtain ⟨hne, hpos⟩ := hwf d hd
  obtain ⟨hT, hNT⟩ := dir_rename_for_spec d.2 hne hpos
  constructor
  · intro htie
    have hfor := hT htie
    have hclean : (get_directory_renames dirs).2 = false := by
      rw [gdr_clean]
      rcases hall : dirs.all (fun d => (dir_rename_for d.2).2.1) with _ | _
      · rfl
      · exfalso
        have := List.all_eq_true.mp hall d hd
        rw [hfor] at this
        exact Bool.noConfusion this
    refine ⟨by rw [hfor], hclean, ?_, ?_⟩
    · intro st renames_clean2
      rw [hclean]
      simp [merge_overall_clean]
    · intro y hy
      obtain ⟨c, hc1, hc2⟩ := (gdr_mem dirs d.1 y).mp hy
      have hcd : c = d.2 := nodup_keys_eq dirs d.1 c d.2 hkeys hc1 hd
      rw [hcd, hfor] at hc2
      exact Option.noConfusion hc2
  · intro hnotie
    obtain ⟨best, hfor, hmem, huniq⟩ := hNT hnotie
    refine ⟨best, ?_, ?_, hmem, huniq⟩
    · exact (gdr_mem dirs d.1 best).mpr ⟨d.2, hd, by rw [hfor]⟩
    · intro y hy
      obtain ⟨c, hc1, hc2⟩ := (gdr_mem dirs d.1 y).mp hy
      have hcd : c = d.2 := nodup_keys_eq dirs d.1 c d.2 hkeys hc1 hd
      rw [hcd, hfor] at hc2
      exact (Option.some.inj hc2).symm

/-- Witness for c3_directory_rename_split: the counts map
old -> {a: 1, b: 1} ties at maximum 1, so the merge is unclean and no
mapping from "old" is installed; src -> {dst: 2} maps cleanly. -/
theorem c3_directory_rename_split_witness :
    (dir_rename_for [("a", 1), ("b", 1)]).2.2 = true ∧
    (get_directory_renames [("old", [("a", 1), ("b", 1)])]).2 = false ∧
    ("old", "a") ∉ (get_directory_renames [("old", [("a", 1), ("b", 1)])]).1 :=
  have h := c3_directory_rename_split [("old", [("a", 1), ("b", 1)])]
    (by decide) (by decide) ("old", [("a", 1), ("b", 1)]) (by simp)
  have h2 := h.1 (by decide)
  ⟨h2.1, h2.2.1, h2.2.2.2 "a"⟩

theorem process_entry_fm35 (ctx : resolver_ctx) (st : resolver_state) (path : String)
    (ci : conflict_info)
    (hfm : ci.filemask = 3 ∨ ci.filemask = 5)
    (hmm : ci.match_mask = 0) (hdf : ci.df_conflict = false)
    (hdepth : ctx.call_depth = 0) :
    process_entry ctx st path ci =
      finalize_entry st path
        (if ctx.renormalize && blob_unchanged ctx.renorm_eq ci.stage0
             (ci.stage (if ci.filemask = 5 then 2 else 1))
         then { ci with
                  merged.result := ci.stage (if ci.filemask = 5 then 2 else 1),
                  merged.is_null := true,
                  merged.clean := true }
         else { ci with
                  merged.result := ci.stage (if ci.filemask = 5 then 2 else 1),
                  merged.clean := false }) := by
  have hfm0 : ¬ci.filemask = 0 := by rcases hfm with h | h <;> simp [h]
  have h6 : ¬(6 ≤ ci.filemask ∧ (ci.stage1.mode &&& s_IFMT) ≠ (ci.stage2.mode &&& s_IFMT)) := by
    rcases hfm with h | h <;> simp [h]
  have h6b : ¬6 ≤ ci.filemask := by rcases hfm with h | h <;> simp [h]
  rw [process_entry, if_neg hfm0, if_neg (by simp [hdf]), if_neg (by simp [hdf])]
  rw [process_entry_chain, if_neg (by simp [hmm]), if_neg h6, if_neg h6b, if_pos hfm]
  have hidx : (if ctx.call_depth ≠ 0 then 0 else if ci.filemask = 5 then 2 else 1) =
      (if ci.filemask = 5 then 2 else 1) := by simp [hdepth]
  simp only [hidx]

theorem process_entry_fm24 (ctx : resolver_ctx) (st : resolver_state) (path : String)
    (ci : conflict_info)
    (hfm : ci.filemask = 2 ∨ ci.filemask = 4)
    (hmm : ci.match_mask = 0) (hdf : ci.df_conflict = false) :
    process_entry ctx st path ci =
      finalize_entry st path
        { ci with
            merged.result := ci.stage (if ci.filemask = 4 then 2 else 1),
            merged.clean := !ci.df_conflict && !ci.path_conflict } := by
  have hfm0 : ¬ci.filemask = 0 := by rcases hfm with h | h <;> simp [h]
  have h6 : ¬(6 ≤ ci.filemask ∧ (ci.stage1.mode &&& s_IFMT) ≠ (ci.stage2.mode &&& s_IFMT)) := by
    rcases hfm with h | h <;> simp [h]
  have h6b : ¬6 ≤ ci.filemask := by rcases hfm with h | h <;> simp [h]
  have h35 : ¬(ci.filemask = 3 ∨ ci.filemask = 5) := by rcases hfm with h | h <;> simp [h]
  rw [process_entry, if_neg hfm0, if_neg (by simp [hdf]), if_neg (by simp [hdf])]
  rw [process_entry_chain, if_neg (by simp [hmm]), if_neg h6, if_neg h6b, if_neg h35,
    if_pos hfm]

theorem process_entry_fm1 (ctx : resolver_ctx) (st : resolver_state) (path : String)
    (ci : conflict_info)
    (hfm : ci.filemask = 1)
    (hmm : ci.match_mask = 0) (hdf : ci.df_conflict = false) :
    process_entry ctx st path ci =
      finalize_entry st path
        { ci with
            merged.is_null := true,
            merged.result := null_version,
            merged.clean := !ci.path_conflict } := by
  have hfm0 : ¬ci.filemask = 0 := by simp [hfm]
  have h6 : ¬(6 ≤ ci.filemask ∧ (ci.stage1.mode &&& s_IFMT) ≠ (ci.stage2.mode &&& s_IFMT)) := by
    simp [hfm]
  have h6b : ¬6 ≤ ci.filemask := by simp [hfm]
  have h35 : ¬(ci.filemask = 3 ∨ ci.filemask = 5) := by simp [hfm]
  have h24 : ¬(ci.filemask = 2 ∨ ci.filemask = 4) := by simp [hfm]
  rw [process_entry, if_neg hfm0, if_neg (by simp [hdf]), if_neg (by simp [hdf])]
  rw [process_entry_chain, if_neg (by simp [hmm]), if_neg h6, if_neg h6b, if_neg h35,
    if_neg h24, if_pos hfm]

/-- C4: a record classified as modify/delete (filemask 3 or 5, no
stage matches, no directory/file conflict) in a non-recursive merge
(call_depth 0) takes the modified side's version as its result and is
marked unclean, except when renormalize is on and the
renormalize-and-equal check (blob_unchanged) finds base and modified
blobs equal, in which case it is marked clean with is_null set
(process_entry lines 3728-3759). -/
theorem c4_modify_delete (ctx : resolver_ctx) (st : resolver_state) (path : String)
    (ci : conflict_info)
    (hfm : ci.filemask = 3 ∨ ci.filemask = 5)
    (hmm : ci.match_mask = 0) (hdf : ci.df_conflict = false)
    (hdepth : ctx.call_depth = 0) (_hclean : ci.merged.clean = false) :
    ∃ r, smLookup (process_entry ctx st path ci).paths path = some r ∧
      r.merged.result = ci.stage (if ci.filemask = 5 then 2 else 1) ∧
      ((ctx.renormalize && blob_unchanged ctx.renorm_eq ci.stage0
          (ci.stage (if ci.filemask = 5 then 2 else 1))) = true →
        r.merged.clean = true ∧ r.merged.is_null = true) ∧
      ((ctx.renormalize && blob_unchanged ctx.renorm_eq ci.stage0
          (ci.stage (if ci.filemask = 5 then 2 else 1))) = false →
        r.merged.clean = false ∧
        smLookup (process_entry ctx st path ci).unmerged path = some r) := by
  rw [process_entry_fm35 ctx st path ci hfm hmm hdf hdepth]
  by_cases hrn : (ctx.renormalize && blob_unchanged ctx.renorm_eq ci.stage0
      (ci.stage (if ci.filemask = 5 then 2 else 1))) = true
  · rw [if_pos hrn]
    refine ⟨_, smLookup_smPut_self st.paths path _, rfl, fun _ => ⟨rfl, rfl⟩, fun hc => ?_⟩
    rw [hrn] at hc
    exact Bool.noConfusion hc
  · rw [if_neg hrn]
    exact ⟨_, smLookup_smPut_self st.paths path _, rfl, fun hc => absurd hc hrn,
      fun _ => ⟨rfl, smLookup_smPut_self st.unmerged path _⟩⟩

/-- Witness for c4_modify_delete: the concrete modify/delete record
md_rec at path "x" (renormalize off, so the record stays unclean and
is registered as unmerged). -/
theorem c4_modify_delete_witness :
    ∃ r, smLookup (process_entry ctx_w { paths := [("x", md_rec)], unmerged := [] }
        "x" md_rec).paths "x" = some r ∧
      r.merged.result = md_rec.stage (if md_rec.filemask = 5 then 2 else 1) ∧
      ((ctx_w.renormalize && blob_unchanged ctx_w.renorm_eq md_rec.stage0
          (md_rec.stage (if md_rec.filemask = 5 then 2 else 1))) = true →
        r.merged.clean = true ∧ r.merged.is_null = true) ∧
      ((ctx_w.renormalize && blob_unchanged ctx_w.renorm_eq md_rec.stage0
          (md_rec.stage (if md_rec.filemask = 5 then 2 else 1))) = false →
        r.merged.clean = false ∧
        smLookup (process_entry ctx_w { paths := [("x", md_rec)], unmerged := [] }
            "x" md_rec).unmerged "x" = some r) :=
  c4_modify_delete ctx_w { paths := [("x", md_rec)], unmerged := [] } "x" md_rec
    (Or.inl (by decide)) (by decide) (by decide) (by decide) (by decide)

theorem triple_put_lookup (u : strmap) (k1 k2 k3 : String)
    (v1 v2 v3 : conflict_info)
    (h12 : k1 ≠ k2) (h13 : k1 ≠ k3) (h23 : k2 ≠ k3) :
    smLookup (smPut (smPut (smPut u k1 v1) k2 v2) k3 v3) k1 = some v1 ∧
    smLookup (smPut (smPut (smPut u k1 v1) k2 v2) k3 v3) k2 = some v2 ∧
    smLookup (smPut (smPut (smPut u k1 v1) k2 v2) k3 v3) k3 = some v3 := by
  refine ⟨?_, ?_, ?_⟩
  · rw [smLookup_smPut_ne _ _ _ _ h13, smLookup_smPut_ne _ _ _ _ h12]
    exact smLookup_smPut_self _ _ _
  · rw [smLookup_smPut_ne _ _ _ _ h23]
    exact smLookup_smPut_self _ _ _
  · exact smLookup_smPut_self _ _ _

/-- C10: when a rename/rename(1to2) conflict is handled, the record at
the source path is not resolved by removal: it keeps clean == false
with path_conflict set and filemask == 1, so after resolution the
source path appears in the UNMERGED MAP (with only its stage-1 base
entry, filemask 1), in addition to the two rename-target paths
(process_renames lines 2417-2494 and process_entry lines 3760-3771). -/
theorem c10_rename_rename_1to2
    (ctx : resolver_ctx) (oldpath new1 new2 : String)
    (base side1 side2 : conflict_info)
    (hb_fm : base.filemask = 1) (hb_mm : base.match_mask = 0)
    (hb_df : base.df_conflict = false) (hb_clean : base.merged.clean = false)
    (h1_fm : side1.filemask = 2) (h1_mm : side1.match_mask = 0)
    (h1_df : side1.df_conflict = false) (h1_clean : side1.merged.clean = false)
    (h2_fm : side2.filemask = 4) (h2_mm : side2.match_mask = 0)
    (h2_df : side2.df_conflict = false) (h2_clean : side2.merged.clean = false)
    (hn1 : oldpath ≠ new1) (hn2 : oldpath ≠ new2) (hn12 : new1 ≠ new2) :
    ∃ rb r1 r2,
      smLookup (process_entries ctx
        [(oldpath, (process_renames_1to2 ctx.content_merge ctx.call_depth base side1 side2).1),
         (new1, (process_renames_1to2 ctx.content_merge ctx.call_depth base side1 side2).2.1),
         (new2, (process_renames_1to2 ctx.content_merge ctx.call_depth base side1 side2).2.2)]).unmerged
        oldpath = some rb ∧
      rb.merged.clean = false ∧ rb.path_conflict = true ∧ rb.filemask = 1 ∧
      smLookup (process_entries ctx
        [(oldpath, (process_renames_1to2 ctx.content_merge ctx.call_depth base side1 side2).1),
         (new1, (process_renames_1to2 ctx.content_merge ctx.call_depth base side1 side2).2.1),
         (new2, (process_renames_1to2 ctx.content_merge ctx.call_depth base side1 side2).2.2)]).unmerged
        new1 = some r1 ∧
      r1.merged.clean = false ∧
      smLookup (process_entries ctx
        [(oldpath, (process_renames_1to2 ctx.content_merge ctx.call_depth base side1 side2).1),
         (new1, (process_renames_1to2 ctx.content_merge ctx.call_depth base side1 side2).2.1),
         (new2, (process_renames_1to2 ctx.content_merge ctx.call_depth base side1 side2).2.2)]).unmerged
        new2 = some r2 ∧
      r2.merged.clean = false := by
  have hB_fm : (process_renames_1to2 ctx.content_merge ctx.call_depth base side1 side2).1.filemask = 1 := hb_fm
  have hB_mm : (process_renames_1to2 ctx.content_merge ctx.call_depth base side1 side2).1.match_mask = 0 := hb_mm
  have hB_df : (process_renames_1to2 ctx.content_merge ctx.call_depth base side1 side2).1.df_conflict = false := hb_df
  have hB_pc : (process_renames_1to2 ctx.content_merge ctx.call_depth base side1 side2).1.path_conflict = true := rfl
  have hB_clean : (process_renames_1to2 ctx.content_merge ctx.call_depth base side1 side2).1.merged.clean = false := hb_clean
  have h21_fm : (process_renames_1to2 ctx.content_merge ctx.call_depth base side1 side2).2.1.filemask = 2 := h1_fm
  have h21_mm : (process_renames_1to2 ctx.content_merge ctx.call_depth base side1 side2).2.1.match_mask = 0 := h1_mm
  have h21_df : (process_renames_1to2 ctx.content_merge ctx.call_depth base side1 side2).2.1.df_conflict = false := h1_df
  have h21_pc : (process_renames_1to2 ctx.content_merge ctx.call_depth base side1 side2).2.1.path_conflict = true := rfl
  have h21_clean : (process_renames_1to2 ctx.content_merge ctx.call_depth base side1 side2).2.1.merged.clean = false := h1_clean
  have h22_fm : (process_renames_1to2 ctx.content_merge ctx.call_depth base side1 side2).2.2.filemask = 4 := h2_fm
  have h22_mm : (process_renames_1to2 ctx.content_merge ctx.call_depth base side1 side2).2.2.match_mask = 0 := h2_mm
  have h22_df : (process_renames_1to2 ctx.content_merge ctx.call_depth base side1 side2).2.2.df_conflict = false := h2_df
  have h22_pc : (process_renames_1to2 ctx.content_merge ctx.call_depth base side1 side2).2.2.path_conflict = true := rfl
  have h22_clean : (process_renames_1to2 ctx.content_merge ctx.call_depth base side1 side2).2.2.merged.clean = false := h2_clean
  rw [process_entries, process_entries_go, if_neg (by rw [hB_clean]; exact Bool.noConfusion)]
  rw [process_entry_fm1 ctx _ oldpath _ hB_fm hB_mm hB_df]
  rw [process_entries_go, if_neg (by rw [h21_clean]; exact Bool.noConfusion)]
  rw [process_entry_fm24 ctx _ new1 _ (Or.inl h21_fm) h21_mm h21_df]
  rw [process_entries_go, if_neg (by rw [h22_clean]; exact Bool.noConfusion)]
  rw [process_entry_fm24 ctx _ new2 _ (Or.inr h22_fm) h22_mm h22_df]
  rw [process_entries_go]
  simp only [finalize_entry, hB_pc, h21_df, h21_pc, h22_df, h22_pc, Bool.not_true,
    Bool.not_false, Bool.true_and, Bool.and_false, Bool.false_and, Bool.false_eq_true,
    if_false]
  obtain ⟨ha, hb, hc⟩ := triple_put_lookup [] oldpath new1 new2 _ _ _ hn1 hn2 hn12
  exact ⟨_, _, _, ha, rfl, rfl, hB_fm, hb, rfl, hc, rfl⟩

/-- Witness for c10_rename_rename_1to2: source "f" renamed to "g" on
side1 and to "h" on side2, with the concrete records rr_src_rec,
rr_tgt1_rec, rr_tgt2_rec. -/
theorem c10_rename_rename_1to2_witness :
    ∃ rb r1 r2,
      smLookup (process_entries ctx_w
        [("f", (process_renames_1to2 ctx_w.content_merge ctx_w.call_depth rr_src_rec rr_tgt1_rec rr_tgt2_rec).1),
         ("g", (process_renames_1to2 ctx_w.content_merge ctx_w.call_depth rr_src_rec rr_tgt1_rec rr_tgt2_rec).2.1),
         ("h", (process_renames_1to2 ctx_w.content_merge ctx_w.call_depth rr_src_rec rr_tgt1_rec rr_tgt2_rec).2.2)]).unmerged
        "f" = some rb ∧
      rb.merged.clean = false ∧ rb.path_conflict = true ∧ rb.filemask = 1 ∧
      smLookup (process_entries ctx_w
        [("f", (process_renames_1to2 ctx_w.content_merge ctx_w.call_depth rr_src_rec rr_tgt1_rec rr_tgt2_rec).1),
         ("g", (process_renames_1to2 ctx_w.content_merge ctx_w.call_depth rr_src_rec rr_tgt1_rec rr_tgt2_rec).2.1),
         ("h", (process_renames_1to2 ctx_w.content_merge ctx_w.call_depth rr_src_rec rr_tgt1_rec rr_tgt2_rec).2.2)]).unmerged
        "g" = some r1 ∧
      r1.merged.clean = false ∧
      smLookup (process_entries ctx_w
        [("f", (process_renames_1to2 ctx_w.content_merge ctx_w.call_depth rr_src_rec rr_tgt1_rec rr_tgt2_rec).1),
         ("g", (process_renames_1to2 ctx_w.content_merge ctx_w.call_depth rr_src_rec rr_tgt1_rec rr_tgt2_rec).2.1),
         ("h", (process_renames_1to2 ctx_w.content_merge ctx_w.call_depth rr_src_rec rr_tgt1_rec rr_tgt2_rec).2.2)]).unmerged
        "h" = some r2 ∧
      r2.merged.clean = false :=
  c10_rename_rename_1to2 ctx_w "f" "g" "h" rr_src_rec rr_tgt1_rec rr_tgt2_rec
    (by decide) (by decide) (by decide) (by decide)
    (by decide) (by decide) (by decide) (by decide)
    (by decide) (by decide) (by decide) (by decide)
    (by decide) (by decide) (by decide)

theorem finalize_inv (st : resolver_state) (k : String) (r : conflict_info)
    (S : List String)
    (hfm : 0 < r.filemask) (hinv : inv_except st (k :: S)) (hkS : k ∉ S) :
    inv_except (finalize_entry st k r) S ∧
    ∀ q, q ≠ k → smLookup (finalize_entry st k r).paths q = smLookup st.paths q := by
  have hpaths : (finalize_entry st k r).paths = smPut st.paths k r := rfl
  constructor
  · intro p r'
    by_cases hp : p = k
    · subst hp
      rcases hcl : r.merged.clean with _ | _
      · have hunm : (finalize_entry st p r).unmerged = smPut st.unmerged p r := by
          rw [finalize_entry, if_neg (by simp [hcl])]
        rw [hunm, hpaths, smLookup_smPut_self, smLookup_smPut_self]
        constructor
        · intro hl
          have hr : r' = r := (Option.some.inj hl).symm
          subst hr
          exact ⟨rfl, hcl, hfm, hkS⟩
        · intro hl
          rw [← Option.some.inj hl.1]
      · have hunm : (finalize_entry st p r).unmerged = st.unmerged := by
          rw [finalize_entry, if_pos (by simp [hcl])]
        rw [hunm, hpaths, smLookup_smPut_self]
        constructor
        · intro hl
          have := (hinv p r').mp hl
          exact absurd (by simp : p ∈ p :: S) this.2.2.2
        · intro hl
          have hr : r' = r := (Option.some.inj hl.1).symm
          subst hr
          rw [hcl] at hl
          exact absurd hl.2.1 (by simp)
    · have hunm : smLookup (finalize_entry st k r).unmerged p = smLookup st.unmerged p := by
        rcases hcl : r.merged.clean with _ | _
        · rw [show (finalize_entry st k r).unmerged = smPut st.unmerged k r by
            rw [finalize_entry, if_neg (by simp [hcl])]]
          exact smLookup_smPut_ne _ _ _ _ hp
        · rw [show (finalize_entry st k r).unmerged = st.unmerged by
            rw [finalize_entry, if_pos (by simp [hcl])]]
      rw [hunm, hpaths, smLookup_smPut_ne _ _ _ _ hp]
      rw [hinv p r']
      constructor
      · rintro ⟨h1, h2, h3, h4⟩
        exact ⟨h1, h2, h3, fun hmem => h4 (List.mem_cons.mpr (Or.inr hmem))⟩
      · rintro ⟨h1, h2, h3, h4⟩
        refine ⟨h1, h2, h3, fun hmem => ?_⟩
        rcases List.mem_cons.mp hmem with h | h
        · exact hp h
        · exact h4 h
  · intro q hq
    rw [hpaths]
    exact smLookup_smPut_ne _ _ _ _ hq

theorem unmerged_none_of_fresh (st : resolver_state) (S' : List String)
    (hinv : inv_except st S') (p : String) (hp : p ∉ smKeys st.paths) :
    smLookup st.unmerged p = none := by
  rcases hl : smLookup st.unmerged p with _ | r
  · rfl
  · have := (hinv p r).mp hl
    exact absurd (mem_smKeys_of_smLookup _ _ _ this.1) hp

theorem not_mem_smKeys_smPut (m : strmap) (k q : String) (v : conflict_info)
    (h : q ∉ smKeys (smPut m k v)) : q ≠ k ∧ q ∉ smKeys m :=
  ⟨fun hh => h (hh ▸ mem_smKeys_smPut_self m k v),
   fun hh => h (mem_smKeys_smPut_of_mem m k q v hh)⟩

theorem pe_distinct_invA (st : resolver_state) (k AP : String) (A B : conflict_info)
    (S : List String)
    (hinv : inv_except st (k :: S)) (hkS : k ∉ S) (hkmem : k ∈ smKeys st.paths)
    (hS : ∀ s ∈ S, s ∈ smKeys st.paths)
    (hAP : AP ∉ smKeys st.paths)
    (hAc : A.merged.clean = false) (hBc : B.merged.clean = false)
    (hAfm : 0 < A.filemask) (hBfm : 0 < B.filemask) :
    inv_except (finalize_entry
      { paths := smPut (smPut st.paths AP A) k B, unmerged := smPut st.unmerged k B }
      AP A) S ∧
    ∀ q, q ≠ k → q ∈ smKeys st.paths →
      smLookup (finalize_entry
        { paths := smPut (smPut st.paths AP A) k B, unmerged := smPut st.unmerged k B }
        AP A).paths q = smLookup st.paths q := by
  have hkAP : k ≠ AP := fun h => hAP (h ▸ hkmem)
  have hAPS : AP ∉ S := fun h => hAP (hS _ h)
  have hmid : inv_except
      { paths := smPut (smPut st.paths AP A) k B, unmerged := smPut st.unmerged k B }
      (AP :: S) := by
    intro p r
    by_cases hpk : p = k
    · subst hpk
      show smLookup (smPut st.unmerged p B) p = some r ↔ _
      rw [smLookup_smPut_self]
      show _ ↔ smLookup (smPut (smPut st.paths AP A) p B) p = some r ∧ _
      rw [smLookup_smPut_self]
      constructor
      · intro hl
        rw [← Option.some.inj hl]
        exact ⟨rfl, hBc, hBfm, by simp [hkAP, hkS]⟩
      · intro hl
        rw [← Option.some.inj hl.1]
    · by_cases hpAP : p = AP
      · subst hpAP
        show smLookup (smPut st.unmerged k B) p = some r ↔ _
        rw [smLookup_smPut_ne _ _ _ _ hpk,
          unmerged_none_of_fresh st (k :: S) hinv p hAP]
        constructor
        · intro hl
          exact Option.noConfusion hl
        · rintro ⟨_, _, _, h4⟩
          exact absurd (by simp) h4
      · show smLookup (smPut st.unmerged k B) p = some r ↔ _
        rw [smLookup_smPut_ne _ _ _ _ hpk]
        show _ ↔ smLookup (smPut (smPut st.paths AP A) k B) p = some r ∧ _
        rw [smLookup_smPut_ne _ _ _ _ hpk, smLookup_smPut_ne _ _ _ _ hpAP]
        rw [hinv p r]
        constructor
        · rintro ⟨h1, h2, h3, h4⟩
          refine ⟨h1, h2, h3, fun hmem => ?_⟩
          rcases List.mem_cons.mp hmem with h | h
          · exact hpAP h
          · exact h4 (List.mem_cons.mpr (Or.inr h))
        · rintro ⟨h1, h2, h3, h4⟩
          refine ⟨h1, h2, h3, fun hmem => ?_⟩
          rcases List.mem_cons.mp hmem with h | h
          · exact hpk h
          · exact h4 (List.mem_cons.mpr (Or.inr h))
  obtain ⟨f1, f2⟩ := finalize_inv _ AP A S hAfm hmid hAPS
  refine ⟨f1, ?_⟩
  intro q hq hqmem
  have hqAP : q ≠ AP := fun h => hAP (h ▸ hqmem)
  rw [f2 q hqAP]
  show smLookup (smPut (smPut st.paths AP A) k B) q = smLookup st.paths q
  rw [smLookup_smPut_ne _ _ _ _ hq, smLookup_smPut_ne _ _ _ _ hqAP]

theorem pe_distinct_invB (st : resolver_state) (k BP : String) (A B : conflict_info)
    (S : List String)
    (hinv : inv_except st (k :: S)) (hkS : k ∉ S) (hkmem : k ∈ smKeys st.paths)
    (hS : ∀ s ∈ S, s ∈ smKeys st.paths)
    (hBP : BP ∉ smKeys st.paths)
    (hAc : A.merged.clean = false) (hBc : B.merged.clean = false)
    (hAfm : 0 < A.filemask) (hBfm : 0 < B.filemask) :
    inv_except (finalize_entry
      { paths := smPut st.paths BP B, unmerged := smPut st.unmerged BP B }
      k A) S ∧
    ∀ q, q ≠ k → q ∈ smKeys st.paths →
      smLookup (finalize_entry
        { paths := smPut st.paths BP B, unmerged := smPut st.unmerged BP B }
        k A).paths q = smLookup st.paths q := by
  have hkBP : k ≠ BP := fun h => hBP (h ▸ hkmem)
  have hBPS : BP ∉ S := fun h => hBP (hS _ h)
  have hmid : inv_except
      { paths := smPut st.paths BP B, unmerged := smPut st.unmerged BP B }
      (k :: S) := by
    intro p r
    by_cases hpBP : p = BP
    · subst hpBP
      show smLookup (smPut st.unmerged p B) p = some r ↔ _
      rw [smLookup_smPut_self]
      show _ ↔ smLookup (smPut st.paths p B) p = some r ∧ _
      rw [smLookup_smPut_self]
      constructor
      · intro hl
        rw [← Option.some.inj hl]
        exact ⟨rfl, hBc, hBfm, by simp [Ne.symm hkBP, hBPS]⟩
      · intro hl
        rw [← Option.some.inj hl.1]
    · show smLookup (smPut st.unmerged BP B) p = some r ↔ _
      rw [smLookup_smPut_ne _ _ _ _ hpBP]
      show _ ↔ smLookup (smPut st.paths BP B) p = some r ∧ _
      rw [smLookup_smPut_ne _ _ _ _ hpBP]
      exact hinv p r
  obtain ⟨f1, f2⟩ := finalize_inv _ k A S hAfm hmid hkS
  refine ⟨f1, ?_⟩
  intro q hq hqmem
  have hqBP : q ≠ BP := fun h => hBP (h ▸ hqmem)
  rw [f2 q hq]
  show smLookup (smPut st.paths BP B) q = smLookup st.paths q
  rw [smLookup_smPut_ne _ _ _ _ hqBP]

theorem pe_distinct_invC (st : resolver_state) (k AP BP : String) (A B : conflict_info)
    (S : List String)
    (hinv : inv_except st (k :: S)) (hkS : k ∉ S) (hkmem : k ∈ smKeys st.paths)
    (hS : ∀ s ∈ S, s ∈ smKeys st.paths)
    (hAP : AP ∉ smKeys st.paths)
    (hBP : BP ∉ smKeys (smPut st.paths AP A))
    (hAc : A.merged.clean = false) (hBc : B.merged.clean = false)
    (hAfm : 0 < A.filemask) (hBfm : 0 < B.filemask) :
    inv_except (finalize_entry
      { paths := smRemove (smPut (smPut st.paths AP A) BP B) k,
        unmerged := smPut st.unmerged BP B }
      AP A) S ∧
    ∀ q, q ≠ k → q ∈ smKeys st.paths →
      smLookup (finalize_entry
        { paths := smRemove (smPut (smPut st.paths AP A) BP B) k,
          unmerged := smPut st.unmerged BP B }
        AP A).paths q = smLookup st.paths q := by
  obtain ⟨hBPAP, hBP2⟩ := not_mem_smKeys_smPut _ _ _ _ hBP
  have hkAP : k ≠ AP := fun h => hAP (h ▸ hkmem)
  have hkBP : k ≠ BP := fun h => hBP2 (h ▸ hkmem)
  have hAPS : AP ∉ S := fun h => hAP (hS _ h)
  have hBPS : BP ∉ S := fun h => hBP2 (hS _ h)
  have hmid : inv_except
      { paths := smRemove (smPut (smPut st.paths AP A) BP B) k,
        unmerged := smPut st.unmerged BP B }
      (AP :: S) := by
    intro p r
    have hk_none : smLookup st.unmerged k = none := by
      cases hlk : smLookup st.unmerged k with
      | none => rfl
      | some r2 => exact absurd (List.mem_cons_self k S) (((hinv k r2).mp hlk).2.2.2)
    by_cases hpk : p = k
    · rw [hpk]
      show smLookup (smPut st.unmerged BP B) k = some r ↔ _
      rw [smLookup_smPut_ne _ _ _ _ hkBP, hk_none]
      constructor
      · intro hl
        exact Option.noConfusion hl
      · rintro ⟨h1, _, _, _⟩
        rw [smLookup_smRemove_self] at h1
        exact Option.noConfusion h1
    · by_cases hpBP : p = BP
      · subst hpBP
        show smLookup (smPut st.unmerged p B) p = some r ↔ _
        rw [smLookup_smPut_self]
        show _ ↔ smLookup (smRemove (smPut (smPut st.paths AP A) p B) k) p = some r ∧ _
        rw [smLookup_smRemove_ne _ _ _ hpk, smLookup_smPut_self]
        constructor
        · intro hl
          rw [← Option.some.inj hl]
          exact ⟨rfl, hBc, hBfm, by simp [hBPAP, hBPS]⟩
        · intro hl
          rw [← Option.some.inj hl.1]
      · by_cases hpAP : p = AP
        · subst hpAP
          show smLookup (smPut st.unmerged BP B) p = some r ↔ _
          rw [smLookup_smPut_ne _ _ _ _ (Ne.symm hBPAP)]
          rw [unmerged_none_of_fresh st (k :: S) hinv p hAP]
          constructor
          · intro hl
            exact Option.noConfusion hl
          · rintro ⟨_, _, _, h4⟩
            exact absurd (by simp) h4
        · show smLookup (smPut st.unmerged BP B) p = some r ↔ _
          rw [smLookup_smPut_ne _ _ _ _ hpBP]
          show _ ↔ smLookup (smRemove (smPut (smPut st.paths AP A) BP B) k) p = some r ∧ _
          rw [smLookup_smRemove_ne _ _ _ hpk, smLookup_smPut_ne _ _ _ _ hpBP,
            smLookup_smPut_ne _ _ _ _ hpAP]
          rw [hinv p r]
          constructor
          · rintro ⟨h1, h2, h3, h4⟩
            refine ⟨h1, h2, h3, fun hmem => ?_⟩
            rcases List.mem_cons.mp hmem with h | h
            · exact hpAP h
            · exact h4 (List.mem_cons.mpr (Or.inr h))
          · rintro ⟨h1, h2, h3, h4⟩
            refine ⟨h1, h2, h3, fun hmem => ?_⟩
            rcases List.mem_cons.mp hmem with h | h
            · exact hpk h
            · exact h4 (List.mem_cons.mpr (Or.inr h))
  obtain ⟨f1, f2⟩ := finalize_inv _ AP A S hAfm hmid hAPS
  refine ⟨f1, ?_⟩
  intro q hq hqmem
  have hqAP : q ≠ AP := fun h => hAP (h ▸ hqmem)
  have hqBP : q ≠ BP := fun h => hBP2 (h ▸ hqmem)
  rw [f2 q hqAP]
  show smLookup (smRemove (smPut (smPut st.paths AP A) BP B) k) q = smLookup st.paths q
  rw [smLookup_smRemove_ne _ _ _ hq, smLookup_smPut_ne _ _ _ _ hqBP,
    smLookup_smPut_ne _ _ _ _ hqAP]

theorem chain_inv (ctx : resolver_ctx)
    (hfresh : ∀ keys p b, ctx.uniq keys p b ∉ keys)
    (st : resolver_state) (k : String) (ci : conflict_info) (dfi : Nat)
    (S : List String)
    (hfm : 0 < ci.filemask)
    (hinv : inv_except st (k :: S))
    (hkS : k ∉ S)
    (hkmem : k ∈ smKeys st.paths)
    (hS : ∀ s ∈ S, s ∈ smKeys st.paths) :
    inv_except (process_entry_chain ctx st k ci dfi) S ∧
    ∀ q, q ≠ k → q ∈ smKeys st.paths →
      smLookup (process_entry_chain ctx st k ci dfi).paths q = smLookup st.paths q := by
  rw [process_entry_chain]
  by_cases c1 : ci.match_mask ≠ 0
  · rw [if_pos c1]
    constructor
    · refine (finalize_inv st k _ S ?_ hinv hkS).1
      by_cases h6 : ci.match_mask = 6 <;> simp [h6, hfm]
    · intro q hq _
      refine (finalize_inv st k _ S ?_ hinv hkS).2 q hq
      by_cases h6 : ci.match_mask = 6 <;> simp [h6, hfm]
  · rw [if_neg c1]
    by_cases c2 : 6 ≤ ci.filemask ∧ (ci.stage1.mode &&& s_IFMT) ≠ (ci.stage2.mode &&& s_IFMT)
    · rw [if_pos c2]
      by_cases cd : ctx.call_depth ≠ 0
      · rw [if_pos cd]
        constructor
        · refine (finalize_inv st k _ S ?_ hinv hkS).1
          exact hfm
        · intro q hq _
          refine (finalize_inv st k _ S ?_ hinv hkS).2 q hq
          exact hfm
      · rw [if_neg cd]
        by_cases hra : s_ISREG ci.stage1.mode
        · simp only [hra, ite_true, ite_false, Bool.and_false, Bool.and_true,
            Bool.true_and, Bool.false_and, Bool.false_eq_true, Bool.true_eq_false,
            if_false, if_true]
          exact pe_distinct_invA st k _ _ _ S hinv hkS hkmem hS (hfresh _ _ _)
            (by split <;> rfl) (by split <;> rfl) (by split <;> norm_num)
            (by split <;> norm_num)
        · rw [Bool.not_eq_true] at hra
          by_cases hrb : s_ISREG ci.stage2.mode
          · simp only [hra, hrb, ite_true, ite_false, Bool.and_false, Bool.and_true,
              Bool.true_and, Bool.false_and, Bool.false_eq_true, Bool.true_eq_false,
              if_false, if_true]
            exact pe_distinct_invB st k _ _ _ S hinv hkS hkmem hS (hfresh _ _ _)
              (by split <;> rfl) (by split <;> rfl) (by split <;> norm_num)
              (by split <;> norm_num)
          · rw [Bool.not_eq_true] at hrb
            simp only [hra, hrb, ite_true, ite_false, Bool.and_false, Bool.and_true,
              Bool.true_and, Bool.false_and, Bool.false_eq_true, Bool.true_eq_false,
              Bool.and_self, if_false, if_true]
            exact pe_distinct_invC st k _ _ _ _ S hinv hkS hkmem hS (hfresh _ _ _)
              (hfresh _ _ _) (by split <;> rfl) (by split <;> rfl)
              (by split <;> norm_num) (by split <;> norm_num)
    · rw [if_neg c2]
      by_cases c3 : 6 ≤ ci.filemask
      · rw [if_pos c3]
        constructor
        · refine (finalize_inv st k _ S ?_ hinv hkS).1
          split
          · show 0 < 1 <<< dfi
            rw [Nat.one_shiftLeft]
            positivity
          · exact hfm
        · intro q hq _
          refine (finalize_inv st k _ S ?_ hinv hkS).2 q hq
          split
          · show 0 < 1 <<< dfi
            rw [Nat.one_shiftLeft]
            positivity
          · exact hfm
      · rw [if_neg c3]
        by_cases c4 : ci.filemask = 3 ∨ ci.filemask = 5
        · rw [if_pos c4]
          constructor
          · refine (finalize_inv st k _ S ?_ hinv hkS).1
            simp only [apply_ite conflict_info.filemask, ite_self]
            exact hfm
          · intro q hq _
            refine (finalize_inv st k _ S ?_ hinv hkS).2 q hq
            simp only [apply_ite conflict_info.filemask, ite_self]
            exact hfm
        · rw [if_neg c4]
          by_cases c5 : ci.filemask = 2 ∨ ci.filemask = 4
          · rw [if_pos c5]
            constructor
            · refine (finalize_inv st k _ S ?_ hinv hkS).1
              exact hfm
            · intro q hq _
              refine (finalize_inv st k _ S ?_ hinv hkS).2 q hq
              exact hfm
          · rw [if_neg c5]
            by_cases c6 : ci.filemask = 1
            · rw [if_pos c6]
              constructor
              · refine (finalize_inv st k _ S ?_ hinv hkS).1
                exact hfm
              · intro q hq _
                refine (finalize_inv st k _ S ?_ hinv hkS).2 q hq
                exact hfm
            · rw [if_neg c6]
              constructor
              · refine (finalize_inv st k _ S ?_ hinv hkS).1
                exact hfm
              · intro q hq _
                refine (finalize_inv st k _ S ?_ hinv hkS).2 q hq
                exact hfm

theorem mem_of_smLookup (m : strmap) (k : String) (v : conflict_info)
    (h : smLookup m k = some v) : (k, v) ∈ m := by
  induction m with
  | nil => exact Option.noConfusion h
  | cons e rest ih =>
      rcases e with ⟨k0, v0⟩
      rw [smLookup] at h
      by_cases hk : k0 = k
      · rw [if_pos hk] at h
        rw [hk] at *
        rw [← Option.some.inj h]
        exact List.mem_cons_self _ _
      · rw [if_neg hk] at h
        exact List.mem_cons.mpr (Or.inr (ih h))

theorem smLookup_eq_of_mem_nodup (m : strmap) (k : String) (v : conflict_info)
    (hnd : (m.map (fun e => e.1)).Nodup)
    (h : (k, v) ∈ m) : smLookup m k = some v := by
  induction m with
  | nil => exact absurd h (List.not_mem_nil _)
  | cons e rest ih =>
      simp only [List.map_cons, List.nodup_cons] at hnd
      rcases List.mem_cons.mp h with h2 | h2
      · rw [← h2, smLookup, if_pos rfl]
      · rcases e with ⟨k0, v0⟩
        have hk : k0 ≠ k := fun hh => hnd.1 (hh ▸ List.mem_map.mpr ⟨(k, v), h2, rfl⟩)
        rw [smLookup, if_neg hk]
        exact ih hnd.2 h2

theorem pend_keys_cons_clean (e : String × conflict_info)
    (rest : List (String × conflict_info)) (h : e.2.merged.clean = true) :
    pend_keys (e :: rest) = pend_keys rest := by
  simp [pend_keys, List.filter_cons, h]

theorem pend_keys_cons_unclean (e : String × conflict_info)
    (rest : List (String × conflict_info)) (h : e.2.merged.clean = false) :
    pend_keys (e :: rest) = e.1 :: pend_keys rest := by
  simp [pend_keys, List.filter_cons, h]

theorem mem_pend_keys (rest : List (String × conflict_info)) (s : String)
    (hs : s ∈ pend_keys rest) : ∃ e ∈ rest, e.1 = s := by
  simp only [pend_keys, List.mem_map, List.mem_filter] at hs
  obtain ⟨e, ⟨he, _⟩, heq⟩ := hs
  exact ⟨e, he, heq⟩

theorem pe_df_split_inv (ctx : resolver_ctx)
    (hfresh : ∀ keys p b, ctx.uniq keys p b ∉ keys)
    (st : resolver_state) (k b : String) (ci nci : conflict_info) (dfi : Nat)
    (S : List String)
    (hfm : 0 < nci.filemask)
    (hinv : inv_except st (k :: S)) (hkS : k ∉ S) (hkmem : k ∈ smKeys st.paths)
    (hS : ∀ s ∈ S, s ∈ smKeys st.paths) :
    inv_except (process_entry_chain ctx
      { paths := smPut (smPut st.paths (ctx.uniq (smKeys st.paths) k b) nci) k
          { ci with filemask := 0 },
        unmerged := st.unmerged } (ctx.uniq (smKeys st.paths) k b) nci dfi) S ∧
    ∀ q, q ≠ k → q ∈ smKeys st.paths →
      smLookup (process_entry_chain ctx
        { paths := smPut (smPut st.paths (ctx.uniq (smKeys st.paths) k b) nci) k
            { ci with filemask := 0 },
          unmerged := st.unmerged } (ctx.uniq (smKeys st.paths) k b) nci dfi).paths q
        = smLookup st.paths q := by
  have hNPf : ctx.uniq (smKeys st.paths) k b ∉ smKeys st.paths := hfresh _ _ _
  have hNPS : ctx.uniq (smKeys st.paths) k b ∉ S := fun h => hNPf (hS _ h)
  have hNPmem2 : ctx.uniq (smKeys st.paths) k b ∈ smKeys
      (smPut (smPut st.paths (ctx.uniq (smKeys st.paths) k b) nci) k
        { ci with filemask := 0 }) :=
    mem_smKeys_smPut_of_mem _ _ _ _ (mem_smKeys_smPut_self _ _ _)
  have hS2 : ∀ s ∈ S, s ∈ smKeys
      (smPut (smPut st.paths (ctx.uniq (smKeys st.paths) k b) nci) k
        { ci with filemask := 0 }) := fun s hs =>
    mem_smKeys_smPut_of_mem _ _ _ _ (mem_smKeys_smPut_of_mem _ _ _ _ (hS s hs))
  have hinv2 : inv_except
      { paths := smPut (smPut st.paths (ctx.uniq (smKeys st.paths) k b) nci) k
          { ci with filemask := 0 },
        unmerged := st.unmerged } ((ctx.uniq (smKeys st.paths) k b) :: S) := by
    intro p r
    show smLookup st.unmerged p = some r ↔
      (smLookup (smPut (smPut st.paths (ctx.uniq (smKeys st.paths) k b) nci) k
        { ci with filemask := 0 }) p = some r ∧ r.merged.clean = false ∧
        0 < r.filemask ∧ p ∉ (ctx.uniq (smKeys st.paths) k b) :: S)
    by_cases hpk : p = k
    · rw [hpk, smLookup_smPut_self]
      constructor
      · intro hl
        exact absurd (List.mem_cons_self k S) (((hinv k r).mp hl).2.2.2)
      · rintro ⟨h1, _, h3, _⟩
        rw [← Option.some.inj h1] at h3
        exact absurd h3 (by simp)
    · by_cases hpN : p = ctx.uniq (smKeys st.paths) k b
      · rw [smLookup_smPut_ne _ _ _ _ hpk]
        rw [unmerged_none_of_fresh st (k :: S) hinv p (by rw [hpN]; exact hNPf)]
        constructor
        · intro hl
          exact Option.noConfusion hl
        · rintro ⟨_, _, _, h4⟩
          exact absurd (by rw [hpN]; exact List.mem_cons_self _ _) h4
      · rw [smLookup_smPut_ne _ _ _ _ hpk, smLookup_smPut_ne _ _ _ _ hpN,
          hinv p r]
        constructor
        · rintro ⟨h1, h2, h3, h4⟩
          refine ⟨h1, h2, h3, fun hm => ?_⟩
          rcases List.mem_cons.mp hm with h | h
          · exact hpN h
          · exact h4 (List.mem_cons.mpr (Or.inr h))
        · rintro ⟨h1, h2, h3, h4⟩
          refine ⟨h1, h2, h3, fun hm => ?_⟩
          rcases List.mem_cons.mp hm with h | h
          · exact hpk h
          · exact h4 (List.mem_cons.mpr (Or.inr h))
  obtain ⟨g1, g2⟩ := chain_inv ctx hfresh
    { paths := smPut (smPut st.paths (ctx.uniq (smKeys st.paths) k b) nci) k
        { ci with filemask := 0 },
      unmerged := st.unmerged }
    (ctx.uniq (smKeys st.paths) k b) nci dfi S hfm hinv2 hNPS hNPmem2 hS2
  refine ⟨g1, ?_⟩
  intro q hq hqm
  have hqN : q ≠ ctx.uniq (smKeys st.paths) k b := fun h => hNPf (h ▸ hqm)
  rw [g2 q hqN (mem_smKeys_smPut_of_mem _ _ _ _ (mem_smKeys_smPut_of_mem _ _ _ _ hqm))]
  show smLookup (smPut (smPut st.paths (ctx.uniq (smKeys st.paths) k b) nci) k
      { ci with filemask := 0 }) q = smLookup st.paths q
  rw [smLookup_smPut_ne _ _ _ _ hq, smLookup_smPut_ne _ _ _ _ hqN]

theorem process_entry_inv (ctx : resolver_ctx)
    (hfresh : ∀ keys p b, ctx.uniq keys p b ∉ keys)
    (st : resolver_state) (k : String) (ci : conflict_info) (S : List String)
    (hlk : smLookup st.paths k = some ci)
    (hinv : inv_except st (k :: S))
    (hkS : k ∉ S)
    (hS : ∀ s ∈ S, s ∈ smKeys st.paths) :
    inv_except (process_entry ctx st k ci) S ∧
    ∀ q, q ≠ k → q ∈ smKeys st.paths →
      smLookup (process_entry ctx st k ci).paths q = smLookup st.paths q := by
  have hkmem : k ∈ smKeys st.paths := mem_smKeys_of_smLookup _ _ _ hlk
  rw [process_entry]
  by_cases c0 : ci.filemask = 0
  · rw [if_pos c0]
    refine ⟨?_, fun q _ _ => rfl⟩
    intro p r
    by_cases hpk : p = k
    · rw [hpk]
      constructor
      · intro hl
        exact absurd (List.mem_cons_self k S) (((hinv k r).mp hl).2.2.2)
      · rintro ⟨h1, _, h3, _⟩
        rw [hlk] at h1
        rw [← Option.some.inj h1, c0] at h3
        exact absurd h3 (lt_irrefl 0)
    · rw [hinv p r]
      constructor
      · rintro ⟨h1, h2, h3, h4⟩
        exact ⟨h1, h2, h3, fun hm => h4 (List.mem_cons.mpr (Or.inr hm))⟩
      · rintro ⟨h1, h2, h3, h4⟩
        refine ⟨h1, h2, h3, fun hm => ?_⟩
        rcases List.mem_cons.mp hm with h | h
        · exact hpk h
        · exact h4 h
  · rw [if_neg c0]
    by_cases cA : ci.df_conflict && decide (ci.merged.result.mode = 0)
    · rw [if_pos cA]
      refine chain_inv ctx hfresh st k _ 0 S ?_ hinv hkS hkmem hS
      show 0 < (zero_dir_data ci).filemask
      simp only [zero_dir_data, apply_ite conflict_info.filemask, ite_self]
      omega
    · rw [if_neg cA]
      by_cases cB : ci.df_conflict && decide (ci.merged.result.mode ≠ 0)
      · rw [if_pos cB]
        by_cases cF : ci.filemask = 1
        · rw [if_pos cF]
          constructor
          · intro p r
            show smLookup st.unmerged p = some r ↔
              (smLookup (smPut st.paths k { ci with filemask := 0 }) p = some r ∧
               r.merged.clean = false ∧ 0 < r.filemask ∧ p ∉ S)
            by_cases hpk : p = k
            · rw [hpk, smLookup_smPut_self]
              constructor
              · intro hl
                exact absurd (List.mem_cons_self k S) (((hinv k r).mp hl).2.2.2)
              · rintro ⟨h1, _, h3, _⟩
                rw [← Option.some.inj h1] at h3
                exact absurd h3 (by simp)
            · rw [smLookup_smPut_ne _ _ _ _ hpk, hinv p r]
              constructor
              · rintro ⟨h1, h2, h3, h4⟩
                exact ⟨h1, h2, h3, fun hm => h4 (List.mem_cons.mpr (Or.inr hm))⟩
              · rintro ⟨h1, h2, h3, h4⟩
                refine ⟨h1, h2, h3, fun hm => ?_⟩
                rcases List.mem_cons.mp hm with h | h
                · exact hpk h
                · exact h4 h
          · intro q hq _
            exact smLookup_smPut_ne _ _ _ _ hq
        · rw [if_neg cF]
          refine pe_df_split_inv ctx hfresh st k _ ci _ _ S ?_ hinv hkS hkmem hS
          show 0 < (zero_dir_data ci).filemask
          simp only [zero_dir_data, apply_ite conflict_info.filemask, ite_self]
          omega
      · rw [if_neg cB]
        exact chain_inv ctx hfresh st k ci 0 S (by omega) hinv hkS hkmem hS

theorem process_entries_go_inv (ctx : resolver_ctx)
    (hfresh : ∀ keys p b, ctx.uniq keys p b ∉ keys) :
    ∀ (rest : List (String × conflict_info)) (st : resolver_state),
      (rest.map (fun e => e.1)).Nodup →
      inv_except st (pend_keys rest) →
      (∀ e ∈ rest, smLookup st.paths e.1 = some e.2) →
      inv_except (process_entries_go ctx st rest) [] := by
  intro rest
  induction rest with
  | nil =>
      intro st _ hinv _
      exact hinv
  | cons e rest ih =>
      intro st hnd hinv hlook
      show inv_except (process_entries_go ctx
        (if e.2.merged.clean = true then st else process_entry ctx st e.1 e.2) rest) []
      simp only [List.map_cons, List.nodup_cons] at hnd
      obtain ⟨hknotin, hnd2⟩ := hnd
      rcases hcl : e.2.merged.clean with _ | _
      · rw [if_neg (by simp [hcl])]
        rw [pend_keys_cons_unclean e rest hcl] at hinv
        have hkS : e.1 ∉ pend_keys rest := fun h => by
          obtain ⟨e2, he2, heq⟩ := mem_pend_keys rest e.1 h
          exact hknotin (List.mem_map.mpr ⟨e2, he2, heq⟩)
        have hS : ∀ s ∈ pend_keys rest, s ∈ smKeys st.paths := fun s hs => by
          obtain ⟨e2, he2, heq⟩ := mem_pend_keys rest s hs
          exact heq ▸ mem_smKeys_of_smLookup _ _ _
            (hlook e2 (List.mem_cons.mpr (Or.inr he2)))
        obtain ⟨hinv2, hpres⟩ := process_entry_inv ctx hfresh st e.1 e.2
          (pend_keys rest) (hlook e (List.mem_cons_self e rest)) hinv hkS hS
        refine ih _ hnd2 hinv2 ?_
        intro e2 he2
        have hne : e2.1 ≠ e.1 := fun h =>
          hknotin (h ▸ List.mem_map.mpr ⟨e2, he2, rfl⟩)
        rw [hpres e2.1 hne (mem_smKeys_of_smLookup _ _ _
          (hlook e2 (List.mem_cons.mpr (Or.inr he2))))]
        exact hlook e2 (List.mem_cons.mpr (Or.inr he2))
      · rw [if_pos rfl]
        rw [pend_keys_cons_clean e rest hcl] at hinv
        exact ih _ hnd2 hinv (fun e2 he2 => hlook e2 (List.mem_cons.mpr (Or.inr he2)))

/-- C2: after the resolution loop of process_entries completes, the
unmerged map contains exactly those paths whose path-map record has
clean == false and filemask > 0 — every such record is registered in
the unmerged map, and no record with clean == true or filemask == 0
appears in it.  Stated for any unique-path oracle satisfying the
freshness contract of unique_path and any entry list with distinct
paths. -/
theorem c2_unmerged_exactly_unclean (ctx : resolver_ctx)
    (entries : List (String × conflict_info))
    (hfresh : ∀ keys p b, ctx.uniq keys p b ∉ keys)
    (hnd : (entries.map (fun e => e.1)).Nodup) :
    ∀ p r, smLookup (process_entries ctx entries).unmerged p = some r ↔
      (smLookup (process_entries ctx entries).paths p = some r ∧
       r.merged.clean = false ∧ 0 < r.filemask) := by
  have hinit : inv_except { paths := entries, unmerged := ([] : strmap) }
      (pend_keys entries) := by
    intro p r
    show smLookup ([] : strmap) p = some r ↔
      (smLookup entries p = some r ∧ r.merged.clean = false ∧ 0 < r.filemask ∧
       p ∉ pend_keys entries)
    constructor
    · intro hl
      exact Option.noConfusion hl
    · rintro ⟨h1, h2, _, h4⟩
      have hm : (p, r) ∈ entries := mem_of_smLookup _ _ _ h1
      refine absurd ?_ h4
      simp only [pend_keys, List.mem_map, List.mem_filter]
      exact ⟨(p, r), ⟨hm, by rw [h2]; rfl⟩, rfl⟩
  have hlook : ∀ e ∈ entries,
      smLookup ({ paths := entries, unmerged := [] } : resolver_state).paths e.1
        = some e.2 :=
    fun e he => smLookup_eq_of_mem_nodup entries e.1 e.2 hnd he
  have h := process_entries_go_inv ctx hfresh entries
    { paths := entries, unmerged := [] } hnd hinit hlook
  intro p r
  have h2 := h p r
  rw [process_entries]
  constructor
  · intro hl
    obtain ⟨a, b, c, _⟩ := h2.mp hl
    exact ⟨a, b, c⟩
  · rintro ⟨a, b, c⟩
    exact h2.mpr ⟨a, b, c, List.not_mem_nil p⟩

theorem c2_unmerged_exactly_unclean_witness :
    smLookup (process_entries ctx_w [("md", md_rec)]).unmerged "md" = some md_rec ↔
      (smLookup (process_entries ctx_w [("md", md_rec)]).paths "md" = some md_rec ∧
       md_rec.merged.clean = false ∧ 0 < md_rec.filemask) :=
  c2_unmerged_exactly_unclean ctx_w [("md", md_rec)] fresh_by_length_fresh
    (by decide) "md" md_rec

theorem process_entries_inv (ctx : resolver_ctx)
    (entries : List (String × conflict_info))
    (hfresh : ∀ keys p b, ctx.uniq keys p b ∉ keys)
    (hnd : (entries.map (fun e => e.1)).Nodup) :
    inv_except (process_entries ctx entries) [] := by
  have hinit : inv_except { paths := entries, unmerged := ([] : strmap) }
      (pend_keys entries) := by
    intro p r
    show smLookup ([] : strmap) p = some r ↔
      (smLookup entries p = some r ∧ r.merged.clean = false ∧ 0 < r.filemask ∧
       p ∉ pend_keys entries)
    constructor
    · intro hl
      exact Option.noConfusion hl
    · rintro ⟨h1, h2, _, h4⟩
      have hm : (p, r) ∈ entries := mem_of_smLookup _ _ _ h1
      refine absurd ?_ h4
      simp only [pend_keys, List.mem_map, List.mem_filter]
      exact ⟨(p, r), ⟨hm, by rw [h2]; rfl⟩, rfl⟩
  have hlook : ∀ e ∈ entries,
      smLookup ({ paths := entries, unmerged := [] } : resolver_state).paths e.1
        = some e.2 :=
    fun e he => smLookup_eq_of_mem_nodup entries e.1 e.2 hnd he
  exact process_entries_go_inv ctx hfresh entries
    { paths := entries, unmerged := [] } hnd hinit hlook

/-- C1 counterexample: the overall clean value is NOT the conjunction
of the per-path clean flags of all path-map records with the emptiness
of the unmerged map.  A directory placeholder record (filemask == 0,
clean == false — exactly what collect_merge_info leaves for a
directory it recursed into) stays unclean in the path map and is never
registered as unmerged, so the merge reports clean while the per-path
conjunction over all records is false. -/
theorem c1_overall_clean_counterexample :
    merge_overall_clean true
      (process_entries ctx_w [("d", dir_placeholder_rec)]) = true ∧
    (process_entries ctx_w [("d", dir_placeholder_rec)]).paths.all
      (fun e => e.2.merged.clean) = false := by
  decide

/-- C1 amended: merge_ort_nonrecursive_internal returns
renames_clean && strmap_empty(unmerged); by the unmerged-map
characterization this equals: the rename phase was clean AND every
path-map record whose clean flag is false has filemask == 0 (records
with positive filemask must all be clean, directory placeholders with
filemask == 0 are exempt). -/
theorem c1_overall_clean_amended (ctx : resolver_ctx)
    (entries : List (String × conflict_info)) (rc : Bool)
    (hfresh : ∀ keys p b, ctx.uniq keys p b ∉ keys)
    (hnd : (entries.map (fun e => e.1)).Nodup) :
    merge_overall_clean rc (process_entries ctx entries) = true ↔
      (rc = true ∧ ∀ p r,
        smLookup (process_entries ctx entries).paths p = some r →
        r.merged.clean = false → r.filemask = 0) := by
  have hinv := process_entries_inv ctx entries hfresh hnd
  rw [merge_overall_clean, Bool.and_eq_true]
  constructor
  · rintro ⟨hrc, hemp⟩
    refine ⟨hrc, ?_⟩
    intro p r hp hcl
    by_contra hfm
    have h0 : 0 < r.filemask := Nat.pos_of_ne_zero hfm
    have hsome := (hinv p r).mpr ⟨hp, hcl, h0, List.not_mem_nil p⟩
    rcases hu : (process_entries ctx entries).unmerged with _ | ⟨e, tail⟩
    · rw [hu] at hsome
      exact Option.noConfusion hsome
    · rw [hu] at hemp
      exact Bool.noConfusion hemp
  · rintro ⟨hrc, hall⟩
    refine ⟨hrc, ?_⟩
    rcases hu : (process_entries ctx entries).unmerged with _ | ⟨e, tail⟩
    · rfl
    · exfalso
      rcases e with ⟨k0, v0⟩
      have hl : smLookup (process_entries ctx entries).unmerged k0 = some v0 := by
        rw [hu, smLookup, if_pos rfl]
      obtain ⟨hp, hcl, hfm, _⟩ := (hinv k0 v0).mp hl
      rw [hall k0 v0 hp hcl] at hfm
      exact lt_irrefl 0 hfm

theorem c1_overall_clean_amended_witness :
    (merge_overall_clean true (process_entries ctx_w [("cl", clean_rec)]) = true ↔
      (true = true ∧ ∀ p r,
        smLookup (process_entries ctx_w [("cl", clean_rec)]).paths p = some r →
        r.merged.clean = false → r.filemask = 0)) :=
  c1_overall_clean_amended ctx_w [("cl", clean_rec)] true fresh_by_length_fresh
    (by decide)

theorem insertBy_perm (lt : α → α → Bool) (x : α) :
    ∀ l : List α, (insertBy lt x l).Perm (x :: l)
  | [] => List.Perm.refl _
  | y :: ys => by
      rw [insertBy]
      by_cases h : lt x y = true
      · rw [if_pos h]
      · rw [if_neg h]
        exact ((insertBy_perm lt x ys).cons y).trans (List.Perm.swap x y ys)

theorem isortBy_perm (lt : α → α → Bool) :
    ∀ l : List α, (isortBy lt l).Perm l
  | [] => List.Perm.refl _
  | x :: xs => (insertBy_perm lt x (isortBy lt xs)).trans ((isortBy_perm lt xs).cons x)

theorem mem_insertBy (lt : α → α → Bool) (x a : α) (l : List α)
    (h : a ∈ insertBy lt x l) : a = x ∨ a ∈ l :=
  List.mem_cons.mp ((insertBy_perm lt x l).mem_iff.mp h)

theorem insertBy_sorted (lt : α → α → Bool)
    (hasym : ∀ a b, lt a b = true → lt b a = false)
    (htrans : ∀ a b c, lt a b = true → lt b c = true → lt a c = true)
    (x : α) :
    ∀ l : List α, l.Pairwise (fun a b => lt b a = false) →
      (insertBy lt x l).Pairwise (fun a b => lt b a = false) := by
  intro l
  induction l with
  | nil =>
      intro _
      rw [insertBy]
      exact List.pairwise_singleton _ _
  | cons y ys ih =>
      intro h
      obtain ⟨hy, hys⟩ := List.pairwise_cons.mp h
      rw [insertBy]
      by_cases hxy : lt x y = true
      · rw [if_pos hxy]
        refine List.pairwise_cons.mpr ⟨?_, h⟩
        intro b hb
        rcases List.mem_cons.mp hb with rfl | hb
        · exact hasym _ _ hxy
        · rcases hbx : lt b x with _ | _
          · rfl
          · have hby := htrans b x y hbx hxy
            rw [hy b hb] at hby
            exact Bool.noConfusion hby
      · rw [if_neg hxy]
        refine List.pairwise_cons.mpr ⟨?_, ih hys⟩
        intro b hb
        rcases mem_insertBy lt x b ys hb with rfl | hb
        · exact Bool.eq_false_iff.mpr hxy
        · exact hy b hb

theorem isortBy_sorted (lt : α → α → Bool)
    (hasym : ∀ a b, lt a b = true → lt b a = false)
    (htrans : ∀ a b c, lt a b = true → lt b c = true → lt a c = true) :
    ∀ l : List α, (isortBy lt l).Pairwise (fun a b => lt b a = false)
  | [] => List.Pairwise.nil
  | x :: xs =>
      insertBy_sorted lt hasym htrans x _ (isortBy_sorted lt hasym htrans xs)

theorem sorted_perm_eq (lt : α → α → Bool) :
    ∀ l1 l2 : List α, l1.Perm l2 →
      l1.Pairwise (fun a b => lt a b = true) →
      l2.Pairwise (fun a b => lt b a = false) →
      l1 = l2 := by
  intro l1
  induction l1 with
  | nil =>
      intro l2 hp _ _
      exact (hp.symm.eq_nil).symm
  | cons a l1t ih =>
      intro l2 hp h1 h2
      rcases l2 with _ | ⟨b, l2t⟩
      · exact absurd hp.eq_nil (List.cons_ne_nil a l1t)
      · obtain ⟨h1h, h1t⟩ := List.pairwise_cons.mp h1
        obtain ⟨h2h, h2t⟩ := List.pairwise_cons.mp h2
        by_cases hab : a = b
        · subst hab
          rw [ih l2t hp.cons_inv h1t h2t]
        · exfalso
          have hbm : b ∈ l1t := by
            rcases List.mem_cons.mp (hp.mem_iff.mpr (List.mem_cons_self b l2t)) with h | h
            · exact absurd h.symm hab
            · exact h
          have ham : a ∈ l2t := by
            rcases List.mem_cons.mp (hp.mem_iff.mp (List.mem_cons_self a l1t)) with h | h
            · exact absurd h hab
            · exact h
          have hlt := h1h b hbm
          have hlf := h2h a ham
          rw [hlt] at hlf
          exact Bool.noConfusion hlf

theorem write_tree_of_perm_sorted (t : List tree_entry)
    (versions : List (List Nat × version_info))
    (hperm : versions.Perm (t.map (fun e =>
      (e.name, ({ mode := e.mode, oid := e.oid } : version_info)))))
    (ht : t.Pairwise (fun a b => lex_lt a.name b.name = true)) :
    write_tree versions = t := by
  have hasym : ∀ a b : List Nat × version_info,
      lex_lt a.1 b.1 = true → lex_lt b.1 a.1 = false :=
    fun a b h => lex_lt_asymm _ _ h
  have htrans : ∀ a b c : List Nat × version_info,
      lex_lt a.1 b.1 = true → lex_lt b.1 c.1 = true → lex_lt a.1 c.1 = true :=
    fun a b c h1 h2 => lex_lt_trans _ _ _ h1 h2
  have hsorted1 : (t.map (fun e =>
      (e.name, ({ mode := e.mode, oid := e.oid } : version_info)))).Pairwise
      (fun a b => lex_lt a.1 b.1 = true) := by
    rw [List.pairwise_map]
    exact ht
  have hsorted2 := isortBy_sorted (fun a b : List Nat × version_info => lex_lt a.1 b.1)
    hasym htrans versions
  have hperm2 : (t.map (fun e =>
      (e.name, ({ mode := e.mode, oid := e.oid } : version_info)))).Perm
      (isortBy (fun a b => lex_lt a.1 b.1) versions) :=
    (hperm.symm).trans (isortBy_perm _ versions).symm
  have heq := sorted_perm_eq (fun a b : List Nat × version_info => lex_lt a.1 b.1)
    _ _ hperm2 hsorted1 hsorted2
  rw [write_tree, ← heq, List.map_map]
  show t.map (fun e => e) = t
  exact List.map_id' t

/-- C8: merging three identical trees (base = side1 = side2 = T, T a
stored tree: lexically sorted entry list) early-resolves every path in
collect_merge_info_callback with the base version, collects no rename
candidates (so the rename phase is clean), registers nothing as
unmerged, and writes back exactly the tree T with overall clean ==
true. -/
theorem c8_merge_identical_trees (t : List tree_entry)
    (ht : t.Pairwise (fun a b => lex_lt a.name b.name = true)) :
    merge_trees_same t = (some t, true) := by
  have hcb : ∀ v : version_info,
      collect_merge_info_callback (some v) (some v) (some v) =
        { resolved := some (v, false), rename_info_collected := false,
          needs_recursion := false } := by
    intro v
    simp [collect_merge_info_callback, vmatch]
  have hres : ∀ l : List tree_entry, all_resolved (collect_same l) =
      some (l.map (fun e => (e.name,
        ({ mode := e.mode, oid := e.oid } : version_info), false))) := by
    intro l
    induction l with
    | nil => rfl
    | cons e r ih =>
        show all_resolved ((e.name, collect_merge_info_callback
            (some { mode := e.mode, oid := e.oid })
            (some { mode := e.mode, oid := e.oid })
            (some { mode := e.mode, oid := e.oid })) :: collect_same r) = _
        rw [hcb { mode := e.mode, oid := e.oid }, all_resolved, ih]
        rfl
  have hclean : (collect_same t).all (fun e => !e.2.rename_info_collected) = true := by
    rw [List.all_eq_true]
    intro x hx
    simp only [collect_same, List.mem_map] at hx
    obtain ⟨e, _, rfl⟩ := hx
    simp [hcb]
  have hfilt : ((isortBy (fun a b : List Nat × version_info × Bool =>
        sort_dirs_next_to_their_children a.1 b.1 < 0)
      (t.map (fun e =>
        (e.name, ({ mode := e.mode, oid := e.oid } : version_info), false)))).reverse.filter
      (fun e => !e.2.2)) = (isortBy (fun a b : List Nat × version_info × Bool =>
        sort_dirs_next_to_their_children a.1 b.1 < 0)
      (t.map (fun e =>
        (e.name, ({ mode := e.mode, oid := e.oid } : version_info), false)))).reverse := by
    rw [List.filter_eq_self]
    intro x hx
    have hx2 : x ∈ t.map (fun e =>
        (e.name, ({ mode := e.mode, oid := e.oid } : version_info), false)) :=
      (isortBy_perm _ _).mem_iff.mp (List.mem_reverse.mp hx)
    obtain ⟨e2, _, rfl⟩ := List.mem_map.mp hx2
    rfl
  have hperm : (((isortBy (fun a b : List Nat × version_info × Bool =>
        sort_dirs_next_to_their_children a.1 b.1 < 0)
      (t.map (fun e =>
        (e.name, ({ mode := e.mode, oid := e.oid } : version_info), false)))).reverse.filter
      (fun e => !e.2.2)).map (fun e => (e.1, e.2.1))).Perm
      (t.map (fun e => (e.name, ({ mode := e.mode, oid := e.oid } : version_info)))) := by
    rw [hfilt]
    refine (((List.reverse_perm _).trans (isortBy_perm _ _)).map
      (fun e : List Nat × version_info × Bool => (e.1, e.2.1))).trans ?_
    rw [List.map_map]
    exact List.Perm.refl _
  simp only [merge_trees_same]
  rw [hres t]
  rw [Prod.mk.injEq]
  refine ⟨congrArg some (write_tree_of_perm_sorted t _ hperm ht), ?_⟩
  rw [hclean]
  rfl

theorem c8_merge_identical_trees_witness :
    merge_trees_same
      [{ name := [97], mode := 33188, oid := 5 },
       { name := [98], mode := 16384, oid := 6 }] =
      (some [{ name := [97], mode := 33188, oid := 5 },
             { name := [98], mode := 16384, oid := 6 }], true) :=
  c8_merge_identical_trees _ (by decide)
